import Mathlib

/-!
# go-disruptor: the topology builder (`wireup.go`)

A shallow embedding of `wireup.go` (package `disruptor`) and the properties of
its configuration validation (`New`, `TryNew`, `validate`, the four option
constructors) and of the pipeline wiring (`Build`, `buildListeners`,
`buildSequencer`).

Modelling conventions.

* A Go interface value (`WaitStrategy`, `Consumer`, `error`) is either `nil` or
  an implementation; implementations are told apart by a natural-number tag.
* `int64` is the integers of `[-2^63, 2^63)`; `-` and `&` wrap modulo `2^64`.
* `*Wireup` is `Option Wireup`, `none` being the nil pointer; `panic(err)` is
  `Except.error err`.
* Go's `type Option func(*Wireup)` is `WireupOption`, a function from the
  `Wireup` before the call to the `Wireup` after it (the name `Option` is
  taken in Lean).  Option values are taken to be non-nil functions.
* `NewSequence()` allocates; the allocation is explicit state passing over a
  counter of the Sequences allocated so far, and a `*Sequence` is the number
  of its allocation.
-/

namespace disruptor

/-! ## Data model -/

/-- Go's `int64`: an integer of the range `[-2^63, 2^63)`. -/
structure int64 where
  val : Int
  lo : -9223372036854775808 ≤ val
  hi : val < 9223372036854775808

instance : DecidableEq int64 := fun a b =>
  if h : a.val = b.val then
    isTrue (by cases a; cases b; simp only [int64.mk.injEq]; exact h)
  else
    isFalse (fun e => h (by rw [e]))

/-- Reduction of an integer into the `int64` range, modulo `2^64`
(two's complement wrap-around). -/
def int64.wrap (x : Int) : int64 where
  val := (x + 9223372036854775808) % 18446744073709551616 - 9223372036854775808
  lo := by omega
  hi := by omega

instance (n : Nat) : OfNat int64 n := ⟨int64.wrap n⟩

/-- The 64-bit two's complement pattern of an `int64`, as a natural number
below `2^64`. -/
def int64.bits (a : int64) : Nat := (a.val % 18446744073709551616).toNat

/-- Go's `a - b` on `int64` (wraps on overflow). -/
def int64.sub (a b : int64) : int64 := int64.wrap (a.val - b.val)

/-- Go's `a & b` on `int64`: bitwise and of the two's complement patterns. -/
def int64.and (a b : int64) : int64 := int64.wrap (Int.ofNat (a.bits &&& b.bits))

/-- A value of the interface type `WaitStrategy`; the interface itself is
declared outside `wireup.go`. -/
inductive WaitStrategy where
  | nil
  | impl (tag : Nat)
  deriving DecidableEq, Repr

/-- A value of the interface type `Consumer`; the interface itself is declared
outside `wireup.go`. -/
inductive Consumer where
  | nil
  | impl (tag : Nat)
  deriving DecidableEq, Repr

/-- A value of Go's `error` type in this package: `nil`, or one of the six
package-level error values of `wireup.go` (lines 106-113). -/
inductive error where
  | nil
  | errMissingWaitStrategy
  | errCapacityTooSmall
  | errCapacityPowerOfTwo
  | errMissingConsumers
  | errMissingConsumersInGroup
  | errEmptyConsumer
  deriving DecidableEq, Repr

export error (errMissingWaitStrategy errCapacityTooSmall errCapacityPowerOfTwo
  errMissingConsumers errMissingConsumersInGroup errEmptyConsumer)

/-- The message each error value was created with (`errors.New`). -/
def error.Error : error → String
  | .nil => ""
  | .errMissingWaitStrategy => "a wait strategy must be provided"
  | .errCapacityTooSmall => "the capacity must be at least 1"
  | .errCapacityPowerOfTwo => "the capacity be a power of two, e.g. 2, 4, 8, 16"
  | .errMissingConsumers => "no consumers have been provided"
  | .errMissingConsumersInGroup => "the consumer group does not have any consumers"
  | .errEmptyConsumer => "an empty consumer was specified in the consumer group"

/-- The struct `Wireup` (lines 5-10). -/
structure Wireup where
  spinWait : Bool
  waiter : WaitStrategy
  capacity : int64
  consumerGroups : List (List Consumer)
  deriving DecidableEq

/-- Go's `type Option func(*Wireup)`: the effect of the call on the pointee. -/
abbrev WireupOption := Wireup → Wireup

/-! ## Options (lines 99-104) -/

/-- The option constructor `WithSpinWait` (line 99). -/
def WithSpinWait (value : Bool) : WireupOption :=
  fun this => { this with spinWait := value }

/-- The option constructor `WithWaitStrategy` (line 100). -/
def WithWaitStrategy (value : WaitStrategy) : WireupOption :=
  fun this => { this with waiter := value }

/-- The option constructor `WithCapacity` (line 101). -/
def WithCapacity (value : int64) : WireupOption :=
  fun this => { this with capacity := value }

/-- The option constructor `WithConsumerGroup` (lines 102-104): `append` of the argument list as one
more group. -/
def WithConsumerGroup (value : List Consumer) : WireupOption :=
  fun this => { this with consumerGroups := this.consumerGroups ++ [value] }

/-! ## Validation (lines 36-66) -/

/-- The inner loop of `validate` (lines 58-62) over one consumer group. -/
def validateConsumers : List Consumer → error
  | [] => error.nil
  | consumer :: rest =>
    if consumer = Consumer.nil then errEmptyConsumer else validateConsumers rest

/-- The outer loop of `validate` (lines 53-63) over the consumer groups. -/
def validateGroups : List (List Consumer) → error
  | [] => error.nil
  | consumerGroup :: rest =>
    if consumerGroup.length = 0 then errMissingConsumersInGroup
    else
      match validateConsumers consumerGroup with
      | error.nil => validateGroups rest
      | err => err

/-- The method `(*Wireup).validate`. -/
def validate (this : Wireup) : error :=
  if this.waiter = WaitStrategy.nil then errMissingWaitStrategy
  else if this.capacity.val ≤ 0 then errCapacityTooSmall
  else if (this.capacity.and (this.capacity.sub 1)).val ≠ 0 then errCapacityPowerOfTwo
  else if this.consumerGroups.length = 0 then errMissingConsumers
  else validateGroups this.consumerGroups

/-! ## Construction (lines 20-35) -/

/-- The zero value `Wireup{}` that `TryNew` starts from (line 21). -/
def Wireup.zero : Wireup where
  spinWait := false
  waiter := WaitStrategy.nil
  capacity := 0
  consumerGroups := []

/-- Lines 21-28 of `TryNew`: the zero `Wireup`, the two defaults, then every
option in the order given.  `NewWaitStrategy` is the value returned by the
constructor `NewWaitStrategy()`, which is defined outside `wireup.go`. -/
def TryNew.configure (NewWaitStrategy : WaitStrategy) (options : List WireupOption) : Wireup :=
  options.foldl (fun this option => option this)
    (WithWaitStrategy NewWaitStrategy (WithSpinWait true Wireup.zero))

/-- The function `TryNew`: the pair of the returned `*Wireup` and `error`. -/
def TryNew (NewWaitStrategy : WaitStrategy) (options : List WireupOption) :
    Option Wireup × error :=
  let this := TryNew.configure NewWaitStrategy options
  match validate this with
  | error.nil => (some this, error.nil)
  | err => (none, err)

/-- The function `New` (lines 13-19).  `Except.error err` is `panic(err)`, and
`Except.ok this` is the return of the `*Wireup` `this`. -/
def New (NewWaitStrategy : WaitStrategy) (options : List WireupOption) :
    Except error (Option Wireup) :=
  match TryNew NewWaitStrategy options with
  | (this, err) => if err ≠ error.nil then Except.error err else Except.ok this

/-! ## Wiring (lines 68-97)

The constructors `NewSequence`, `NewCompositeBarrier`, `NewListener`,
`NewSequencer` and `NewSpinSequencer` are called by `wireup.go` and defined
elsewhere in the package.  Each is modelled as the record of the call: which
constructor was called, and on which arguments. -/

/-- Modelled from the spec: the type `Sequence` (declared outside `wireup.go`),
"an atomically readable/writable monotonic counter".  A `*Sequence` is
identified by the number of the allocation that created it. -/
structure Sequence where
  addr : Nat
  deriving DecidableEq, Repr

/-- Modelled from the spec: the constructor `NewSequence()` (defined outside
`wireup.go`).  It returns a Sequence that did not exist before; `allocated` is
the number of Sequences allocated so far, and the result carries the new
count. -/
def NewSequence (allocated : Nat) : Sequence × Nat :=
  (⟨allocated⟩, allocated + 1)

/-- Modelled from the spec: the interface `Barrier` (declared outside
`wireup.go`).  The two kinds of value `wireup.go` produces: a `*Sequence`
used as a Barrier ("a plain Barrier over a single Sequence"), and the result
of `NewCompositeBarrier(members...)` ("a Barrier over several Sequences"). -/
inductive Barrier where
  | sequence (s : Sequence)
  | composite (members : List Sequence)
  deriving DecidableEq, Repr

/-- Modelled from the spec: the constructor `NewCompositeBarrier` (defined
outside `wireup.go`), a CompositeBarrier over the Sequences it is given. -/
def NewCompositeBarrier (sequences : List Sequence) : Barrier :=
  Barrier.composite sequences

/-- Modelled from the spec: the Listener type (declared outside `wireup.go`),
which "binds one consumer callback to its own Sequence, an upstream Barrier,
and a WaitStrategy"; the fields are the five arguments of `NewListener`. -/
structure Listener where
  current : Sequence
  written : Sequence
  upstream : Barrier
  waiter : WaitStrategy
  consumer : Consumer
  deriving DecidableEq, Repr

/-- Modelled from the spec: the constructor `NewListener` (defined outside
`wireup.go`), in the argument order of the call on line 81. -/
def NewListener (current written : Sequence) (upstream : Barrier) (waiter : WaitStrategy)
    (consumer : Consumer) : Listener :=
  { current := current, written := written, upstream := upstream, waiter := waiter,
    consumer := consumer }

/-- Modelled from the spec: the type `compositeListener` (declared outside
`wireup.go`), the "aggregate handle that starts/stops every Listener as a
unit": the Listeners it was converted from, in order. -/
abbrev compositeListener := List Listener

/-- Modelled from the spec: the interface `Sequencer` (declared outside
`wireup.go`).  The two kinds of value `wireup.go` produces: the result of
`NewSequencer(written, upstream, capacity)` and the result of
`NewSpinSequencer(inner)`, "a decorator wrapping any Sequencer". -/
inductive Sequencer where
  | default (written : Sequence) (upstream : Barrier) (capacity : int64)
  | spin (inner : Sequencer)
  deriving DecidableEq

/-- Modelled from the spec: the constructor `NewSequencer` (defined outside
`wireup.go`). -/
def NewSequencer (written : Sequence) (upstream : Barrier) (capacity : int64) : Sequencer :=
  Sequencer.default written upstream capacity

/-- Modelled from the spec: the constructor `NewSpinSequencer` (defined outside
`wireup.go`). -/
def NewSpinSequencer (inner : Sequencer) : Sequencer :=
  Sequencer.spin inner

/-- The body of the inner loop of `buildListeners` (lines 80-82).  The loop
state is `listeners`, `consumerGroupSequences` and the allocation count. -/
def buildListeners.consumerStep (this : Wireup) (writerSequence : Sequence) (upstream : Barrier)
    (state : List Listener × List Sequence × Nat) (consumer : Consumer) :
    List Listener × List Sequence × Nat :=
  let currentSequence := (NewSequence state.2.2).1
  let allocated := (NewSequence state.2.2).2
  (state.1 ++ [NewListener currentSequence writerSequence upstream this.waiter consumer],
    state.2.1 ++ [currentSequence],
    allocated)

/-- The body of the outer loop of `buildListeners` (lines 77-85).  The loop
state is `listeners`, `upstream` and the allocation count. -/
def buildListeners.groupStep (this : Wireup) (writerSequence : Sequence)
    (state : List Listener × Barrier × Nat) (consumerGroup : List Consumer) :
    List Listener × Barrier × Nat :=
  let inner := consumerGroup.foldl (buildListeners.consumerStep this writerSequence state.2.1)
    (state.1, [], state.2.2)
  (inner.1, NewCompositeBarrier inner.2.1, inner.2.2)

/-- The method `(*Wireup).buildListeners`: the returned `listeners` and
`upstream`, and the allocation count afterwards. -/
def buildListeners (this : Wireup) (writerSequence : Sequence) (allocated : Nat) :
    List Listener × Barrier × Nat :=
  this.consumerGroups.foldl (buildListeners.groupStep this writerSequence)
    ([], Barrier.sequence writerSequence, allocated)

/-- The method `(*Wireup).buildSequencer`. -/
def buildSequencer (this : Wireup) (writerSequence : Sequence) (readBarrier : Barrier) :
    Sequencer :=
  let sequencer := NewSequencer writerSequence readBarrier this.capacity
  if this.spinWait then NewSpinSequencer sequencer else sequencer

/-- The method `(*Wireup).Build`, run when `allocated` Sequences exist. -/
def Build (this : Wireup) (allocated : Nat) : Sequencer × compositeListener :=
  let writerSequence := (NewSequence allocated).1
  let built := buildListeners this writerSequence (NewSequence allocated).2
  (buildSequencer this writerSequence built.2.1, built.1)

/-! ## Vocabulary of the specification -/

/-- The validity predicate of the specification (section 4.7): "a non-nil
WaitStrategy, capacity > 0 and a power of two, at least one consumer group,
every group non-empty, no nil consumer entries". -/
def Wireup.Valid (this : Wireup) : Prop :=
  this.waiter ≠ WaitStrategy.nil ∧
  0 < this.capacity.val ∧
  (∃ k : Nat, this.capacity.val = 2 ^ k) ∧
  this.consumerGroups ≠ [] ∧
  (∀ consumerGroup ∈ this.consumerGroups, consumerGroup ≠ []) ∧
  (∀ consumerGroup ∈ this.consumerGroups, ∀ consumer ∈ consumerGroup, consumer ≠ Consumer.nil)

/-- A call of one of the four option constructors of `wireup.go`, with its
argument. -/
inductive OptionCall where
  | withSpinWait (value : Bool)
  | withWaitStrategy (value : WaitStrategy)
  | withCapacity (value : int64)
  | withConsumerGroup (value : List Consumer)
  deriving DecidableEq

/-- The option value that the call returns. -/
def OptionCall.option : OptionCall → WireupOption
  | .withSpinWait value => WithSpinWait value
  | .withWaitStrategy value => WithWaitStrategy value
  | .withCapacity value => WithCapacity value
  | .withConsumerGroup value => WithConsumerGroup value

/-- Consecutive blocks of a list, of the given sizes. -/
def blocks {α : Type} : List Nat → List α → List (List α)
  | [], _ => []
  | size :: sizes, xs => xs.take size :: blocks sizes (xs.drop size)

/-- The Listeners of each stage, given all Listeners in the order they were
built: one block per consumer group, of the size of that group. -/
def Wireup.stages (this : Wireup) (listeners : List Listener) : List (List Listener) :=
  blocks (this.consumerGroups.map List.length) listeners

/-- The argument of the last `WithSpinWait` call of a list of calls, if there
is one. -/
def OptionCall.lastSpinWait (calls : List OptionCall) : Option Bool :=
  calls.reverse.findSome? fun call =>
    match call with
    | .withSpinWait value => some value
    | _ => none

/-- The argument of the last `WithWaitStrategy` call of a list of calls, if
there is one. -/
def OptionCall.lastWaitStrategy (calls : List OptionCall) : Option WaitStrategy :=
  calls.reverse.findSome? fun call =>
    match call with
    | .withWaitStrategy value => some value
    | _ => none

/-- The argument of the last `WithCapacity` call of a list of calls, if there
is one. -/
def OptionCall.lastCapacity (calls : List OptionCall) : Option int64 :=
  calls.reverse.findSome? fun call =>
    match call with
    | .withCapacity value => some value
    | _ => none

/-- The argument lists of the `WithConsumerGroup` calls of a list of calls, in
the order of the calls. -/
def OptionCall.consumerGroups (calls : List OptionCall) : List (List Consumer) :=
  calls.filterMap fun call =>
    match call with
    | .withConsumerGroup value => some value
    | _ => none

/-- The first consumer group that is empty or contains a nil consumer, if
there is one. -/
def firstDefectiveGroup (consumerGroups : List (List Consumer)) : Option (List Consumer) :=
  consumerGroups.find? fun consumerGroup =>
    decide (consumerGroup = []) || decide (Consumer.nil ∈ consumerGroup)

/-- The error that the first consumer group that is empty or contains a nil
consumer decides: `errMissingConsumersInGroup` if that group is empty,
`errEmptyConsumer` if it contains a nil consumer, and no error if there is no
such group. -/
def firstGroupDefect (consumerGroups : List (List Consumer)) : error :=
  match firstDefectiveGroup consumerGroups with
  | none => error.nil
  | some consumerGroup =>
    if consumerGroup = [] then errMissingConsumersInGroup else errEmptyConsumer

/-! ## Closed forms of the wiring loops -/

/-- The Listeners that the inner loop of `buildListeners` appends for one
consumer group, when `allocated` Sequences exist at its start. -/
def stageListeners (this : Wireup) (writerSequence : Sequence) (upstream : Barrier) :
    Nat → List Consumer → List Listener
  | _, [] => []
  | allocated, consumer :: rest =>
    NewListener ⟨allocated⟩ writerSequence upstream this.waiter consumer ::
      stageListeners this writerSequence upstream (allocated + 1) rest

/-- The Listeners that the outer loop of `buildListeners` appends, one list
per consumer group, when it starts from the given `upstream` and allocation
count. -/
def stagesFrom (this : Wireup) (writerSequence : Sequence) :
    Barrier → Nat → List (List Consumer) → List (List Listener)
  | _, _, [] => []
  | upstream, allocated, consumerGroup :: rest =>
    stageListeners this writerSequence upstream allocated consumerGroup ::
      stagesFrom this writerSequence
        (NewCompositeBarrier
          ((stageListeners this writerSequence upstream allocated consumerGroup).map
            Listener.current))
        (allocated + consumerGroup.length) rest

/-! ## Properties -/

/-! ### Capacity arithmetic -/

theorem land_pred_eq_zero_iff : ∀ n : Nat, 0 < n → (n &&& (n - 1) = 0 ↔ ∃ k : Nat, n = 2 ^ k) := by
  intro n
  induction n using Nat.strong_induction_on with
  | _ n ih =>
    intro hn
    have hsplit : n &&& (n - 1) = 0 ↔ (n / 2 &&& (n - 1) / 2) = 0 := by
      have hd := @Nat.and_div_two n (n - 1)
      have hm := @Nat.and_mod_two_eq_one n (n - 1)
      have hodd : ¬ (n % 2 = 1 ∧ (n - 1) % 2 = 1) := by omega
      have hm0 : (n &&& (n - 1)) % 2 = 0 := by
        have : (n &&& (n - 1)) % 2 ≠ 1 := fun h => hodd (hm.mp h)
        omega
      rw [← hd]
      omega
    rw [hsplit]
    rcases Nat.even_or_odd' n with ⟨m, hm | hm⟩
    · have hm1 : 0 < m := by omega
      have e1 : n / 2 = m := by omega
      have e2 : (n - 1) / 2 = m - 1 := by omega
      rw [e1, e2, ih m (by omega) hm1]
      constructor
      · rintro ⟨k, hk⟩
        exact ⟨k + 1, by rw [hm, hk, pow_succ]; ring⟩
      · rintro ⟨k, hk⟩
        cases k with
        | zero => simp at hk; omega
        | succ k =>
          refine ⟨k, ?_⟩
          rw [pow_succ] at hk
          omega
    · have e1 : n / 2 = m := by omega
      have e2 : (n - 1) / 2 = m := by omega
      rw [e1, e2, Nat.and_self]
      constructor
      · intro h0
        exact ⟨0, by simp; omega⟩
      · rintro ⟨k, hk⟩
        cases k with
        | zero => simp at hk; omega
        | succ k =>
          rw [pow_succ] at hk
          omega

theorem int64.one_val : (1 : int64).val = 1 := by
  show ((((1 : Nat) : Int)) + 9223372036854775808) % 18446744073709551616 - 9223372036854775808 = 1
  omega

theorem int64.and_pred_val (c : int64) (hc : 0 < c.val) :
    (c.and (c.sub 1)).val = ((c.val.toNat &&& (c.val.toNat - 1) : Nat) : Int) := by
  have hhi := c.hi
  have hsub : (c.sub 1).val = c.val - 1 := by
    show (c.val - (1 : int64).val + 9223372036854775808) % 18446744073709551616
      - 9223372036854775808 = c.val - 1
    rw [int64.one_val]; omega
  have hb1 : c.bits = c.val.toNat := by
    show (c.val % 18446744073709551616).toNat = c.val.toNat
    congr 1; omega
  have hb2 : (c.sub 1).bits = c.val.toNat - 1 := by
    show ((c.sub 1).val % 18446744073709551616).toNat = c.val.toNat - 1
    rw [hsub]; omega
  have hle : c.val.toNat &&& (c.val.toNat - 1) ≤ c.val.toNat := Nat.and_le_left
  show (Int.ofNat (c.bits &&& (c.sub 1).bits) + 9223372036854775808) % 18446744073709551616
      - 9223372036854775808 = _
  rw [hb1, hb2]
  simp only [Int.ofNat_eq_coe]
  omega

theorem int64.and_sub_one_eq_zero_iff (c : int64) (hc : 0 < c.val) :
    (c.and (c.sub 1)).val = 0 ↔ ∃ k : Nat, c.val = 2 ^ k := by
  rw [int64.and_pred_val c hc]
  have hn : 0 < c.val.toNat := by omega
  have key := land_pred_eq_zero_iff c.val.toNat hn
  have hcast : (c.val.toNat : Int) = c.val := Int.toNat_of_nonneg (le_of_lt hc)
  constructor
  · intro h
    have h0 : c.val.toNat &&& (c.val.toNat - 1) = 0 := by exact_mod_cast h
    obtain ⟨k, hk⟩ := key.mp h0
    exact ⟨k, by rw [← hcast, hk]; push_cast; rfl⟩
  · rintro ⟨k, hk⟩
    have : c.val.toNat = 2 ^ k := by
      have : (c.val.toNat : Int) = ((2 ^ k : Nat) : Int) := by rw [hcast, hk]; push_cast; rfl
      exact_mod_cast this
    rw [key.mpr ⟨k, this⟩]; rfl


/-! ### Validation -/

theorem validateConsumers_eq_nil_iff (consumerGroup : List Consumer) :
    validateConsumers consumerGroup = error.nil ↔
      ∀ consumer ∈ consumerGroup, consumer ≠ Consumer.nil := by
  induction consumerGroup with
  | nil => simp [validateConsumers]
  | cons c cs ih =>
    by_cases hc : c = Consumer.nil
    · simp [validateConsumers, hc]
    · simp [validateConsumers, hc, ih]

theorem validateConsumers_of_mem_nil (consumerGroup : List Consumer)
    (h : Consumer.nil ∈ consumerGroup) : validateConsumers consumerGroup = errEmptyConsumer := by
  induction consumerGroup with
  | nil => simp at h
  | cons c cs ih =>
    by_cases hc : c = Consumer.nil
    · simp [validateConsumers, hc]
    · have : Consumer.nil ∈ cs := by
        rcases List.mem_cons.mp h with h1 | h1
        · exact absurd h1.symm hc
        · exact h1
      simp [validateConsumers, hc, ih this]

theorem validateGroups_eq_nil_iff (consumerGroups : List (List Consumer)) :
    validateGroups consumerGroups = error.nil ↔
      (∀ consumerGroup ∈ consumerGroups, consumerGroup ≠ []) ∧
      (∀ consumerGroup ∈ consumerGroups, ∀ consumer ∈ consumerGroup,
        consumer ≠ Consumer.nil) := by
  induction consumerGroups with
  | nil => simp [validateGroups]
  | cons g gs ih =>
    by_cases hg : g = []
    · simp [validateGroups, hg]
    · have hlen : g.length ≠ 0 := by simpa using hg
      by_cases hv : validateConsumers g = error.nil
      · have hall := (validateConsumers_eq_nil_iff g).mp hv
        simp only [validateGroups, hlen, if_false, hv, ih, List.mem_cons, forall_eq_or_imp]
        constructor
        · rintro ⟨h1, h2⟩
          exact ⟨⟨hg, h1⟩, hall, h2⟩
        · rintro ⟨⟨_, h1⟩, _, h2⟩
          exact ⟨h1, h2⟩
      · have hne : ¬ ∀ consumer ∈ g, consumer ≠ Consumer.nil :=
          fun h => hv ((validateConsumers_eq_nil_iff g).mpr h)
        have hres : validateGroups (g :: gs) = validateConsumers g := by
          cases hcase : validateConsumers g <;>
            first
            | exact absurd hcase hv
            | simp [validateGroups, hlen, hcase]
        rw [hres]
        constructor
        · intro h; exact absurd h hv
        · rintro ⟨_, h2⟩
          exact absurd (fun c hc => h2 g (List.mem_cons_self _ _) c hc) hne

theorem validate_eq_nil_iff (this : Wireup) : validate this = error.nil ↔ this.Valid := by
  unfold validate Wireup.Valid
  by_cases hw : this.waiter = WaitStrategy.nil
  · simp [hw]
  by_cases hc : this.capacity.val ≤ 0
  · simp only [hw, hc, if_true, if_false]
    constructor
    · intro h; cases h
    · rintro ⟨_, h, _⟩; omega
  have hpos : 0 < this.capacity.val := by omega
  have hpow := int64.and_sub_one_eq_zero_iff this.capacity hpos
  by_cases hp : (this.capacity.and (this.capacity.sub 1)).val = 0
  · have hk := hpow.mp hp
    by_cases hl : this.consumerGroups = []
    · simp [hw, hc, hp, hl]
    · have hlen : this.consumerGroups.length ≠ 0 := by simpa using hl
      simp only [hw, hc, hp, hlen, if_false, ne_eq, not_true_eq_false, not_false_eq_true,
        validateGroups_eq_nil_iff]
      constructor
      · rintro ⟨h1, h2⟩
        exact ⟨trivial, hpos, hk, hl, h1, h2⟩
      · rintro ⟨_, _, _, _, h1, h2⟩
        exact ⟨h1, h2⟩
  · simp only [hw, hc, hp, if_false, ne_eq, not_false_eq_true, if_true]
    constructor
    · intro h; cases h
    · rintro ⟨_, _, hk, _⟩
      exact absurd (hpow.mpr hk) hp

theorem TryNew_snd (NewWaitStrategy : WaitStrategy) (options : List WireupOption) :
    (TryNew NewWaitStrategy options).2 = validate (TryNew.configure NewWaitStrategy options) := by
  cases h : validate (TryNew.configure NewWaitStrategy options) <;> simp [TryNew, h]

theorem TryNew_fst (NewWaitStrategy : WaitStrategy) (options : List WireupOption) :
    (TryNew NewWaitStrategy options).1 =
      if validate (TryNew.configure NewWaitStrategy options) = error.nil
      then some (TryNew.configure NewWaitStrategy options) else none := by
  cases h : validate (TryNew.configure NewWaitStrategy options) <;> simp [TryNew, h]

/-- C1: `TryNew` returns a nil error if and only if the configuration left
after applying all options has a non-nil wait strategy, a capacity that is
positive and a power of two, at least one consumer group, no empty consumer
group and no nil consumer in any group (the predicate `Wireup.Valid`). -/
theorem TryNew_succeeds_iff_valid (NewWaitStrategy : WaitStrategy)
    (options : List WireupOption) :
    (TryNew NewWaitStrategy options).2 = error.nil ↔
      (TryNew.configure NewWaitStrategy options).waiter ≠ WaitStrategy.nil ∧
      0 < (TryNew.configure NewWaitStrategy options).capacity.val ∧
      (∃ k : Nat, (TryNew.configure NewWaitStrategy options).capacity.val = 2 ^ k) ∧
      (TryNew.configure NewWaitStrategy options).consumerGroups ≠ [] ∧
      (∀ consumerGroup ∈ (TryNew.configure NewWaitStrategy options).consumerGroups,
        consumerGroup ≠ []) ∧
      (∀ consumerGroup ∈ (TryNew.configure NewWaitStrategy options).consumerGroups,
        ∀ consumer ∈ consumerGroup, consumer ≠ Consumer.nil) := by
  rw [TryNew_snd, validate_eq_nil_iff]
  rfl

/-- C2: `TryNew` fails closed.  For every list of options the error it returns
is the one `validate` reported on the configured `Wireup`; it returns either
that `Wireup` with a nil error, or a nil `Wireup` with a non-nil error; and
whenever `validate` reports an error the returned `Wireup` is nil. -/
theorem TryNew_fails_closed (NewWaitStrategy : WaitStrategy) (options : List WireupOption) :
    (TryNew NewWaitStrategy options).2 = validate (TryNew.configure NewWaitStrategy options) ∧
    (((TryNew NewWaitStrategy options).1 = some (TryNew.configure NewWaitStrategy options) ∧
        (TryNew NewWaitStrategy options).2 = error.nil) ∨
      ((TryNew NewWaitStrategy options).1 = none ∧
        (TryNew NewWaitStrategy options).2 ≠ error.nil)) ∧
    (validate (TryNew.configure NewWaitStrategy options) ≠ error.nil →
      (TryNew NewWaitStrategy options).1 = none) := by
  rw [TryNew_snd, TryNew_fst]
  by_cases h : validate (TryNew.configure NewWaitStrategy options) = error.nil
  · simp [h]
  · simp [h]

/-- C3: a configuration with a non-nil wait strategy and a capacity that is
positive but not a power of two fails validation with `errCapacityPowerOfTwo`,
whatever its consumer groups are. -/
theorem validate_capacity_not_power_of_two (this : Wireup)
    (hwaiter : this.waiter ≠ WaitStrategy.nil) (hpos : 0 < this.capacity.val)
    (hpow : ¬ ∃ k : Nat, this.capacity.val = 2 ^ k) :
    validate this = errCapacityPowerOfTwo := by
  have hp : (this.capacity.and (this.capacity.sub 1)).val ≠ 0 :=
    fun h => hpow ((int64.and_sub_one_eq_zero_iff this.capacity hpos).mp h)
  have hc : ¬ this.capacity.val ≤ 0 := by omega
  simp only [validate, hwaiter, hc, if_false, hp, ne_eq, not_false_eq_true, if_true]


/-- Capacity 3 is positive and not a power of two, and is rejected with
`errCapacityPowerOfTwo`. -/
theorem validate_capacity_not_power_of_two_witness :
    (Wireup.mk true (WaitStrategy.impl 0) 3 [[Consumer.impl 1]]).waiter ≠ WaitStrategy.nil ∧
    0 < (Wireup.mk true (WaitStrategy.impl 0) 3 [[Consumer.impl 1]]).capacity.val ∧
    validate (Wireup.mk true (WaitStrategy.impl 0) 3 [[Consumer.impl 1]]) =
      errCapacityPowerOfTwo :=
  ⟨by decide, by decide,
    validate_capacity_not_power_of_two (Wireup.mk true (WaitStrategy.impl 0) 3 [[Consumer.impl 1]])
      (by decide) (by decide)
      (by
        rintro ⟨k, hk⟩
        have h3 : (2 : Int) ^ k = 3 := by rw [← hk]; rfl
        cases k with
        | zero => simp at h3
        | succ k => rw [pow_succ] at h3; omega)⟩

/-- C4: a configuration with a non-nil wait strategy and a capacity that is
zero or negative fails validation with `errCapacityTooSmall`, whatever its
consumer groups are. -/
theorem validate_capacity_too_small (this : Wireup)
    (hwaiter : this.waiter ≠ WaitStrategy.nil) (hcap : this.capacity.val ≤ 0) :
    validate this = errCapacityTooSmall := by
  simp only [validate, hwaiter, hcap, if_false, if_true]

/-- The configuration `TryNew` builds when no `WithCapacity` option is given has
capacity 0 and is rejected with `errCapacityTooSmall`. -/
theorem validate_capacity_too_small_witness :
    (TryNew.configure (WaitStrategy.impl 0) [WithConsumerGroup [Consumer.impl 1]]).waiter
      ≠ WaitStrategy.nil ∧
    (TryNew.configure (WaitStrategy.impl 0) [WithConsumerGroup [Consumer.impl 1]]).capacity.val
      = 0 ∧
    validate (TryNew.configure (WaitStrategy.impl 0) [WithConsumerGroup [Consumer.impl 1]]) =
      errCapacityTooSmall :=
  ⟨by decide, by decide,
    validate_capacity_too_small
      (TryNew.configure (WaitStrategy.impl 0) [WithConsumerGroup [Consumer.impl 1]])
      (by decide) (by decide)⟩

/-- C5: a configuration with a non-nil wait strategy, a capacity that is
positive and a power of two, and no consumer group fails validation with
`errMissingConsumers`. -/
theorem validate_missing_consumers (this : Wireup)
    (hwaiter : this.waiter ≠ WaitStrategy.nil) (hpos : 0 < this.capacity.val)
    (hpow : ∃ k : Nat, this.capacity.val = 2 ^ k) (hgroups : this.consumerGroups = []) :
    validate this = errMissingConsumers := by
  have hp : (this.capacity.and (this.capacity.sub 1)).val = 0 :=
    (int64.and_sub_one_eq_zero_iff this.capacity hpos).mpr hpow
  have hc : ¬ this.capacity.val ≤ 0 := by omega
  simp [validate, hwaiter, hc, hp, hgroups]

/-- Capacity 4 with no consumer group is rejected with `errMissingConsumers`. -/
theorem validate_missing_consumers_witness :
    (Wireup.mk true (WaitStrategy.impl 0) 4 []).waiter ≠ WaitStrategy.nil ∧
    (Wireup.mk true (WaitStrategy.impl 0) 4 []).capacity.val = 2 ^ 2 ∧
    (Wireup.mk true (WaitStrategy.impl 0) 4 []).consumerGroups = [] ∧
    validate (Wireup.mk true (WaitStrategy.impl 0) 4 []) = errMissingConsumers :=
  ⟨by decide, by decide, rfl,
    validate_missing_consumers (Wireup.mk true (WaitStrategy.impl 0) 4 [])
      (by decide) (by decide) ⟨2, by decide⟩ rfl⟩

theorem validateConsumers_cases (consumerGroup : List Consumer) :
    validateConsumers consumerGroup = error.nil ∨
      validateConsumers consumerGroup = errEmptyConsumer := by
  induction consumerGroup with
  | nil => exact Or.inl rfl
  | cons c cs ih =>
    by_cases hc : c = Consumer.nil
    · simp [validateConsumers, hc]
    · simpa [validateConsumers, hc] using ih

theorem validateGroups_cons_of_ne_nil (g : List Consumer) (gs : List (List Consumer))
    (hg : g ≠ []) :
    validateGroups (g :: gs) =
      if validateConsumers g = error.nil then validateGroups gs else validateConsumers g := by
  have hlen : g.length ≠ 0 := by simpa using hg
  cases hcase : validateConsumers g <;> simp [validateGroups, hlen, hcase]

theorem validateGroups_of_mem_nil (before after : List (List Consumer)) (g : List Consumer)
    (hnil : Consumer.nil ∈ g) (hbefore : ∀ h ∈ before, h ≠ []) :
    validateGroups (before ++ g :: after) = errEmptyConsumer := by
  induction before with
  | nil =>
    have hg : g ≠ [] := List.ne_nil_of_mem hnil
    rw [List.nil_append, validateGroups_cons_of_ne_nil g after hg,
      validateConsumers_of_mem_nil g hnil]
    simp
  | cons b bs ih =>
    have hb : b ≠ [] := hbefore b (List.mem_cons_self _ _)
    have ih1 := ih (fun h hh => hbefore h (List.mem_cons_of_mem _ hh))
    rw [List.cons_append, validateGroups_cons_of_ne_nil b _ hb]
    rcases validateConsumers_cases b with h | h
    · simp [h, ih1]
    · simp [h]

/-- C6, as stated, fails: with a wait strategy, capacity 4 and the consumer
groups `[[], [nil]]`, the second group contains a nil consumer, and validation
fails with `errMissingConsumersInGroup`, not `errEmptyConsumer`, because the
empty group comes first. -/
theorem validate_nil_consumer_after_empty_group :
    (Wireup.mk true (WaitStrategy.impl 0) 4 [[], [Consumer.nil]]).waiter ≠ WaitStrategy.nil ∧
    0 < (Wireup.mk true (WaitStrategy.impl 0) 4 [[], [Consumer.nil]]).capacity.val ∧
    (Wireup.mk true (WaitStrategy.impl 0) 4 [[], [Consumer.nil]]).capacity.val = 2 ^ 2 ∧
    (∃ consumerGroup ∈ (Wireup.mk true (WaitStrategy.impl 0) 4 [[], [Consumer.nil]]).consumerGroups,
      Consumer.nil ∈ consumerGroup) ∧
    validate (Wireup.mk true (WaitStrategy.impl 0) 4 [[], [Consumer.nil]]) =
      errMissingConsumersInGroup ∧
    validate (Wireup.mk true (WaitStrategy.impl 0) 4 [[], [Consumer.nil]]) ≠
      errEmptyConsumer :=
  ⟨by decide, by decide, by decide, ⟨[Consumer.nil], by decide, by decide⟩, by decide, by decide⟩

/-- C6 (amended): a configuration with a non-nil wait strategy and a capacity
that is positive and a power of two, in which some consumer group contains a
nil consumer and no consumer group before that group is empty, fails
validation with `errEmptyConsumer`. -/
theorem validate_nil_consumer (this : Wireup)
    (hwaiter : this.waiter ≠ WaitStrategy.nil) (hpos : 0 < this.capacity.val)
    (hpow : ∃ k : Nat, this.capacity.val = 2 ^ k)
    (before after : List (List Consumer)) (consumerGroup : List Consumer)
    (hgroups : this.consumerGroups = before ++ consumerGroup :: after)
    (hnil : Consumer.nil ∈ consumerGroup)
    (hbefore : ∀ earlier ∈ before, earlier ≠ []) :
    validate this = errEmptyConsumer := by
  have hp : (this.capacity.and (this.capacity.sub 1)).val = 0 :=
    (int64.and_sub_one_eq_zero_iff this.capacity hpos).mpr hpow
  have hc : ¬ this.capacity.val ≤ 0 := by omega
  have hlen : this.consumerGroups.length ≠ 0 := by simp [hgroups]
  simp only [validate, hwaiter, hc, hp, hlen, if_false, ne_eq, not_true_eq_false]
  rw [hgroups]
  exact validateGroups_of_mem_nil before after consumerGroup hnil hbefore

/-- The groups `[c1]`, `[c2, nil]`, `[]`: the nil consumer of the second group is
found before the empty third group is reached. -/
theorem validate_nil_consumer_witness :
    (Wireup.mk true (WaitStrategy.impl 0) 4
      [[Consumer.impl 1], [Consumer.impl 2, Consumer.nil], []]).waiter ≠ WaitStrategy.nil ∧
    Consumer.nil ∈ [Consumer.impl 2, Consumer.nil] ∧
    validate (Wireup.mk true (WaitStrategy.impl 0) 4
      [[Consumer.impl 1], [Consumer.impl 2, Consumer.nil], []]) = errEmptyConsumer :=
  ⟨by decide, by decide,
    validate_nil_consumer
      (Wireup.mk true (WaitStrategy.impl 0) 4
        [[Consumer.impl 1], [Consumer.impl 2, Consumer.nil], []])
      (by decide) (by decide) ⟨2, by decide⟩
      [[Consumer.impl 1]] [[]] [Consumer.impl 2, Consumer.nil] rfl (by decide) (by decide)⟩


/-! ### Defaults and options -/

theorem foldl_options_waiter (calls : List OptionCall)
    (hno : ∀ value, OptionCall.withWaitStrategy value ∉ calls) (init : Wireup) :
    ((calls.map OptionCall.option).foldl (fun this option => option this) init).waiter =
      init.waiter := by
  induction calls generalizing init with
  | nil => rfl
  | cons c cs ih =>
    have hcs : ∀ value, OptionCall.withWaitStrategy value ∉ cs :=
      fun value h => hno value (List.mem_cons_of_mem _ h)
    rw [List.map_cons, List.foldl_cons, ih hcs]
    cases c with
    | withWaitStrategy value => exact absurd (List.mem_cons_self _ _) (hno value)
    | withSpinWait value => rfl
    | withCapacity value => rfl
    | withConsumerGroup value => rfl

theorem validateGroups_ne_errMissingWaitStrategy (consumerGroups : List (List Consumer)) :
    validateGroups consumerGroups ≠ errMissingWaitStrategy := by
  induction consumerGroups with
  | nil => simp [validateGroups]
  | cons g gs ih =>
    by_cases hg : g = []
    · simp [validateGroups, hg]
    · rw [validateGroups_cons_of_ne_nil g gs hg]
      rcases validateConsumers_cases g with h | h
      · simpa [h] using ih
      · simp [h]

theorem validate_eq_errMissingWaitStrategy_iff (this : Wireup) :
    validate this = errMissingWaitStrategy ↔ this.waiter = WaitStrategy.nil := by
  constructor
  · intro h
    by_contra hw
    have hg := validateGroups_ne_errMissingWaitStrategy this.consumerGroups
    unfold validate at h
    simp only [hw, if_false] at h
    split_ifs at h
    exact hg h
  · intro hw
    simp [validate, hw]

/-- C7: for every list of option calls that contains no `WithWaitStrategy`
call, the configuration `TryNew` validates has the value of
`NewWaitStrategy()` as its wait strategy; so when that value is not nil,
`TryNew` does not return `errMissingWaitStrategy`. -/
theorem TryNew_default_wait_strategy (NewWaitStrategy : WaitStrategy) (calls : List OptionCall)
    (hno : ∀ value, OptionCall.withWaitStrategy value ∉ calls) :
    (TryNew.configure NewWaitStrategy (calls.map OptionCall.option)).waiter = NewWaitStrategy ∧
    (NewWaitStrategy ≠ WaitStrategy.nil →
      (TryNew NewWaitStrategy (calls.map OptionCall.option)).2 ≠ errMissingWaitStrategy) := by
  have hw : (TryNew.configure NewWaitStrategy (calls.map OptionCall.option)).waiter
      = NewWaitStrategy := by
    unfold TryNew.configure
    rw [foldl_options_waiter calls hno]
    rfl
  refine ⟨hw, fun hd h => ?_⟩
  rw [TryNew_snd, validate_eq_errMissingWaitStrategy_iff, hw] at h
  exact hd h

/-- An option list of `WithCapacity(3)` and `WithSpinWait(false)` keeps the default
wait strategy, and is not rejected for a missing wait strategy. -/
theorem TryNew_default_wait_strategy_witness :
    (∀ value, OptionCall.withWaitStrategy value ∉
      [OptionCall.withCapacity 3, OptionCall.withSpinWait false]) ∧
    (TryNew.configure (WaitStrategy.impl 7)
      ([OptionCall.withCapacity 3, OptionCall.withSpinWait false].map OptionCall.option)).waiter
      = WaitStrategy.impl 7 ∧
    (TryNew (WaitStrategy.impl 7)
      ([OptionCall.withCapacity 3, OptionCall.withSpinWait false].map OptionCall.option)).2
      ≠ errMissingWaitStrategy :=
  ⟨by simp,
    (TryNew_default_wait_strategy (WaitStrategy.impl 7)
      [OptionCall.withCapacity 3, OptionCall.withSpinWait false] (by simp)).1,
    (TryNew_default_wait_strategy (WaitStrategy.impl 7)
      [OptionCall.withCapacity 3, OptionCall.withSpinWait false] (by simp)).2 (by decide)⟩

/-! ### Wiring -/

theorem stageListeners_length (this : Wireup) (w : Sequence) (up : Barrier) (a : Nat)
    (g : List Consumer) : (stageListeners this w up a g).length = g.length := by
  induction g generalizing a with
  | nil => rfl
  | cons c cs ih => simp [stageListeners, ih]

theorem stageListeners_consumer (this : Wireup) (w : Sequence) (up : Barrier) (a : Nat)
    (g : List Consumer) : (stageListeners this w up a g).map Listener.consumer = g := by
  induction g generalizing a with
  | nil => rfl
  | cons c cs ih => simp [stageListeners, ih, NewListener]

theorem stageListeners_mem (this : Wireup) (w : Sequence) (up : Barrier) (a : Nat)
    (g : List Consumer) (l : Listener) (hl : l ∈ stageListeners this w up a g) :
    l.upstream = up ∧ l.written = w ∧ l.waiter = this.waiter ∧
      a ≤ l.current.addr ∧ l.current.addr < a + g.length := by
  induction g generalizing a with
  | nil => simp [stageListeners] at hl
  | cons c cs ih =>
    simp only [stageListeners, List.mem_cons] at hl
    rcases hl with h | h
    · subst h
      simp [NewListener]
    · obtain ⟨h1, h2, h3, h4, h5⟩ := ih (a + 1) h
      refine ⟨h1, h2, h3, ?_, ?_⟩
      · omega
      · simp only [List.length_cons]
        omega

theorem consumerStep_foldl (this : Wireup) (w : Sequence) (up : Barrier) (g : List Consumer)
    (ls : List Listener) (seqs : List Sequence) (a : Nat) :
    g.foldl (buildListeners.consumerStep this w up) (ls, seqs, a) =
      (ls ++ stageListeners this w up a g,
        seqs ++ (stageListeners this w up a g).map Listener.current,
        a + g.length) := by
  induction g generalizing ls seqs a with
  | nil => simp [stageListeners]
  | cons c cs ih =>
    rw [List.foldl_cons]
    have hstep : buildListeners.consumerStep this w up (ls, seqs, a) c =
        (ls ++ [NewListener ⟨a⟩ w up this.waiter c], seqs ++ [⟨a⟩], a + 1) := rfl
    rw [hstep, ih]
    simp [stageListeners, NewListener, Nat.add_assoc, Nat.add_comm 1]

theorem groupStep_eq (this : Wireup) (w : Sequence) (ls : List Listener) (up : Barrier)
    (a : Nat) (g : List Consumer) :
    buildListeners.groupStep this w (ls, up, a) g =
      (ls ++ stageListeners this w up a g,
        NewCompositeBarrier ((stageListeners this w up a g).map Listener.current),
        a + g.length) := by
  unfold buildListeners.groupStep
  simp only [consumerStep_foldl, List.nil_append]

theorem groupStep_foldl_listeners (this : Wireup) (w : Sequence) (gs : List (List Consumer))
    (ls : List Listener) (up : Barrier) (a : Nat) :
    (gs.foldl (buildListeners.groupStep this w) (ls, up, a)).1 =
      ls ++ (stagesFrom this w up a gs).flatten := by
  induction gs generalizing ls up a with
  | nil => simp [stagesFrom]
  | cons g rest ih =>
    rw [List.foldl_cons, groupStep_eq, ih]
    simp [stagesFrom]

theorem groupStep_foldl_upstream (this : Wireup) (w : Sequence) (gs : List (List Consumer))
    (ls : List Listener) (up : Barrier) (a : Nat) (last : List Listener)
    (hlast : (stagesFrom this w up a gs).getLast? = some last) :
    (gs.foldl (buildListeners.groupStep this w) (ls, up, a)).2.1 =
      NewCompositeBarrier (last.map Listener.current) := by
  induction gs generalizing ls up a with
  | nil => simp [stagesFrom] at hlast
  | cons g rest ih =>
    rw [List.foldl_cons, groupStep_eq]
    cases rest with
    | nil =>
      simp only [stagesFrom, List.getLast?_singleton, Option.some.injEq] at hlast
      subst hlast
      rfl
    | cons g2 rest2 =>
      apply ih
      rw [stagesFrom] at hlast
      rw [stagesFrom] at hlast ⊢
      rw [List.getLast?_cons_cons] at hlast
      exact hlast

theorem stagesFrom_length (this : Wireup) (w : Sequence) (up : Barrier) (a : Nat)
    (gs : List (List Consumer)) : (stagesFrom this w up a gs).length = gs.length := by
  induction gs generalizing up a with
  | nil => rfl
  | cons g rest ih => simp [stagesFrom, ih]

theorem stagesFrom_consumer (this : Wireup) (w : Sequence) (up : Barrier) (a : Nat)
    (gs : List (List Consumer)) :
    (stagesFrom this w up a gs).map (List.map Listener.consumer) = gs := by
  induction gs generalizing up a with
  | nil => rfl
  | cons g rest ih => simp [stagesFrom, ih, stageListeners_consumer]

theorem blocks_stagesFrom (this : Wireup) (w : Sequence) (up : Barrier) (a : Nat)
    (gs : List (List Consumer)) :
    blocks (gs.map List.length) (stagesFrom this w up a gs).flatten =
      stagesFrom this w up a gs := by
  induction gs generalizing up a with
  | nil => rfl
  | cons g rest ih =>
    simp only [stagesFrom, List.map_cons, List.flatten_cons, blocks]
    rw [List.take_left' (stageListeners_length this w up a g),
      List.drop_left' (stageListeners_length this w up a g), ih]

theorem stagesFrom_addr_ge (this : Wireup) (w : Sequence) (up : Barrier) (a : Nat)
    (gs : List (List Consumer)) (stage : List Listener)
    (hstage : stage ∈ stagesFrom this w up a gs) (l : Listener) (hl : l ∈ stage) :
    a ≤ l.current.addr := by
  induction gs generalizing up a with
  | nil => simp [stagesFrom] at hstage
  | cons g rest ih =>
    simp only [stagesFrom, List.mem_cons] at hstage
    rcases hstage with h | h
    · subst h
      exact (stageListeners_mem this w up a g l hl).2.2.2.1
    · have hge := ih _ _ h
      omega

theorem stagesFrom_first (this : Wireup) (w : Sequence) (up : Barrier) (a : Nat)
    (gs : List (List Consumer)) (stage : List Listener)
    (hstage : (stagesFrom this w up a gs)[0]? = some stage) (l : Listener) (hl : l ∈ stage) :
    l.upstream = up := by
  cases gs with
  | nil => simp [stagesFrom] at hstage
  | cons g rest =>
    simp only [stagesFrom, List.getElem?_cons_zero, Option.some.injEq] at hstage
    subst hstage
    exact (stageListeners_mem this w up a g l hl).1

theorem stagesFrom_next (this : Wireup) (w : Sequence) (up : Barrier) (a : Nat)
    (gs : List (List Consumer)) (k : Nat) (previous stage : List Listener)
    (hprevious : (stagesFrom this w up a gs)[k]? = some previous)
    (hstage : (stagesFrom this w up a gs)[k + 1]? = some stage)
    (l : Listener) (hl : l ∈ stage) :
    l.upstream = NewCompositeBarrier (previous.map Listener.current) := by
  induction gs generalizing up a k with
  | nil => simp [stagesFrom] at hstage
  | cons g rest ih =>
    rw [stagesFrom, List.getElem?_cons_succ] at hstage
    cases k with
    | zero =>
      rw [stagesFrom, List.getElem?_cons_zero, Option.some.injEq] at hprevious
      subst hprevious
      exact stagesFrom_first this w _ _ rest stage hstage l hl
    | succ k =>
      rw [stagesFrom, List.getElem?_cons_succ] at hprevious
      exact ih _ _ k hprevious hstage

theorem stagesFrom_addr_lt (this : Wireup) (w : Sequence) (up : Barrier) (a : Nat)
    (gs : List (List Consumer)) (j k : Nat) (hjk : j < k) (sj sk : List Listener)
    (hsj : (stagesFrom this w up a gs)[j]? = some sj)
    (hsk : (stagesFrom this w up a gs)[k]? = some sk)
    (l : Listener) (hl : l ∈ sj) (l' : Listener) (hl' : l' ∈ sk) :
    l.current.addr < l'.current.addr := by
  induction gs generalizing up a j k with
  | nil => simp [stagesFrom] at hsj
  | cons g rest ih =>
    cases k with
    | zero => omega
    | succ k =>
      rw [stagesFrom, List.getElem?_cons_succ] at hsk
      cases j with
      | zero =>
        rw [stagesFrom, List.getElem?_cons_zero, Option.some.injEq] at hsj
        subst hsj
        have h1 := (stageListeners_mem this w up a g l hl).2.2.2.2
        have h2 := stagesFrom_addr_ge this w _ _ rest sk (List.mem_iff_getElem?.mpr ⟨k, hsk⟩) l' hl'
        omega
      | succ j =>
        rw [stagesFrom, List.getElem?_cons_succ] at hsj
        exact ih _ _ j k (by omega) hsj hsk

theorem Build_listeners (this : Wireup) (allocated : Nat) :
    (Build this allocated).2 =
      (stagesFrom this ⟨allocated⟩ (Barrier.sequence ⟨allocated⟩) (allocated + 1)
        this.consumerGroups).flatten := by
  show (buildListeners this ⟨allocated⟩ (allocated + 1)).1 = _
  unfold buildListeners
  rw [groupStep_foldl_listeners, List.nil_append]

theorem Build_stages (this : Wireup) (allocated : Nat) :
    this.stages (Build this allocated).2 =
      stagesFrom this ⟨allocated⟩ (Barrier.sequence ⟨allocated⟩) (allocated + 1)
        this.consumerGroups := by
  rw [Build_listeners]
  exact blocks_stagesFrom this _ _ _ _


theorem Build_sequencer (this : Wireup) (allocated : Nat) :
    (Build this allocated).1 =
      buildSequencer this (NewSequence allocated).1
        (buildListeners this (NewSequence allocated).1 (NewSequence allocated).2).2.1 := rfl

theorem stagesFrom_ne_nil_of_mem (this : Wireup) (w : Sequence) (up : Barrier) (a : Nat)
    (gs : List (List Consumer)) (hgs : ∀ g ∈ gs, g ≠ []) (stage : List Listener)
    (hstage : stage ∈ stagesFrom this w up a gs) : stage ≠ [] := by
  have hmem : stage.map Listener.consumer ∈ gs := by
    have hmap := stagesFrom_consumer this w up a gs
    rw [← hmap]
    exact List.mem_map_of_mem _ hstage
  intro hnil
  exact hgs _ hmem (by simp [hnil])

/-- C8: stage gating in `Build`, for every validated configuration.  Split the
Listeners `Build` returns into stages, one block per consumer group.  The
blocks cover all the Listeners and the Listeners of each stage are bound to
the consumers of its group, in order; no stage is empty.  Every Listener of
stage 0 has the producer Sequence as upstream.  Every Listener of stage `k+1`
has as upstream the CompositeBarrier over the Sequences of the Listeners of
stage `k`, in order.  No Listener of another stage has one of these Sequences
(Listeners of different stages have different Sequences), and no Listener has
the producer Sequence. -/
theorem Build_stage_gating (this : Wireup) (allocated : Nat)
    (hvalid : validate this = error.nil) :
    (this.stages (Build this allocated).2).flatten = (Build this allocated).2 ∧
    (this.stages (Build this allocated).2).map (List.map Listener.consumer)
      = this.consumerGroups ∧
    (∀ stage ∈ this.stages (Build this allocated).2, stage ≠ []) ∧
    (∀ stage : List Listener, (this.stages (Build this allocated).2)[0]? = some stage →
      ∀ listener ∈ stage, listener.upstream = Barrier.sequence (NewSequence allocated).1) ∧
    (∀ (k : Nat) (previous stage : List Listener),
      (this.stages (Build this allocated).2)[k]? = some previous →
      (this.stages (Build this allocated).2)[k + 1]? = some stage →
      ∀ listener ∈ stage,
        listener.upstream = NewCompositeBarrier (previous.map Listener.current)) ∧
    (∀ (j k : Nat) (stagej stagek : List Listener),
      (this.stages (Build this allocated).2)[j]? = some stagej →
      (this.stages (Build this allocated).2)[k]? = some stagek → j ≠ k →
      ∀ listener ∈ stagej, ∀ other ∈ stagek, listener.current ≠ other.current) ∧
    (∀ listener ∈ (Build this allocated).2, listener.current ≠ (NewSequence allocated).1) := by
  have hv := (validate_eq_nil_iff this).mp hvalid
  rw [Build_stages]
  refine ⟨?_, ?_, ?_, ?_, ?_, ?_, ?_⟩
  · rw [Build_listeners]
  · exact stagesFrom_consumer _ _ _ _ _
  · exact fun stage hstage =>
      stagesFrom_ne_nil_of_mem _ _ _ _ _ hv.2.2.2.2.1 stage hstage
  · exact fun stage hstage l hl => stagesFrom_first _ _ _ _ _ stage hstage l hl
  · exact fun k previous stage hp hs l hl => stagesFrom_next _ _ _ _ _ k previous stage hp hs l hl
  · intro j k sj sk hsj hsk hjk l hl l' hl' heq
    rcases Nat.lt_or_gt_of_ne hjk with h | h
    · have hlt := stagesFrom_addr_lt _ _ _ _ _ j k h sj sk hsj hsk l hl l' hl'
      rw [heq] at hlt
      exact Nat.lt_irrefl _ hlt
    · have hlt := stagesFrom_addr_lt _ _ _ _ _ k j h sk sj hsk hsj l' hl' l hl
      rw [heq] at hlt
      exact Nat.lt_irrefl _ hlt
  · intro l hl heq
    rw [Build_listeners, List.mem_flatten] at hl
    obtain ⟨stage, hstage, hmem⟩ := hl
    have hge := stagesFrom_addr_ge _ _ _ _ _ stage hstage l hmem
    rw [heq] at hge
    exact Nat.not_succ_le_self _ hge

/-- Stage gating for capacity 4 and the stages `[c1, c2]`, `[c3]`. -/
theorem Build_stage_gating_witness :
    validate (Wireup.mk true (WaitStrategy.impl 0) 4
      [[Consumer.impl 1, Consumer.impl 2], [Consumer.impl 3]]) = error.nil ∧
    (∀ stage : List Listener, ((Wireup.mk true (WaitStrategy.impl 0) 4
        [[Consumer.impl 1, Consumer.impl 2], [Consumer.impl 3]]).stages
        (Build (Wireup.mk true (WaitStrategy.impl 0) 4
          [[Consumer.impl 1, Consumer.impl 2], [Consumer.impl 3]]) 0).2)[0]? = some stage →
      ∀ listener ∈ stage, listener.upstream = Barrier.sequence (NewSequence 0).1) ∧
    (∀ (k : Nat) (previous stage : List Listener),
      ((Wireup.mk true (WaitStrategy.impl 0) 4
        [[Consumer.impl 1, Consumer.impl 2], [Consumer.impl 3]]).stages
        (Build (Wireup.mk true (WaitStrategy.impl 0) 4
          [[Consumer.impl 1, Consumer.impl 2], [Consumer.impl 3]]) 0).2)[k]? = some previous →
      ((Wireup.mk true (WaitStrategy.impl 0) 4
        [[Consumer.impl 1, Consumer.impl 2], [Consumer.impl 3]]).stages
        (Build (Wireup.mk true (WaitStrategy.impl 0) 4
          [[Consumer.impl 1, Consumer.impl 2], [Consumer.impl 3]]) 0).2)[k + 1]? = some stage →
      ∀ listener ∈ stage,
        listener.upstream = NewCompositeBarrier (previous.map Listener.current)) :=
  ⟨by decide,
    (Build_stage_gating (Wireup.mk true (WaitStrategy.impl 0) 4
      [[Consumer.impl 1, Consumer.impl 2], [Consumer.impl 3]]) 0 (by decide)).2.2.2.1,
    (Build_stage_gating (Wireup.mk true (WaitStrategy.impl 0) 4
      [[Consumer.impl 1, Consumer.impl 2], [Consumer.impl 3]]) 0 (by decide)).2.2.2.2.1⟩

/-- The pipeline `Build` wires for capacity 4 and the stages `[c1, c2]`, `[c3]`:
Sequence 0 is the producer's, Sequences 1 and 2 gate stage 1, and Sequence 3
gates the producer. -/
theorem Build_two_stages : (Build (Wireup.mk true (WaitStrategy.impl 0) 4
      [[Consumer.impl 1, Consumer.impl 2], [Consumer.impl 3]]) 0) =
    (Sequencer.spin (Sequencer.default ⟨0⟩ (Barrier.composite [⟨3⟩]) 4),
     [⟨⟨1⟩, ⟨0⟩, Barrier.sequence ⟨0⟩, WaitStrategy.impl 0, Consumer.impl 1⟩,
      ⟨⟨2⟩, ⟨0⟩, Barrier.sequence ⟨0⟩, WaitStrategy.impl 0, Consumer.impl 2⟩,
      ⟨⟨3⟩, ⟨0⟩, Barrier.composite [⟨1⟩, ⟨2⟩], WaitStrategy.impl 0, Consumer.impl 3⟩]) := by
  decide


/-- C9: producer gating in `Build`, for every validated configuration.  There
is a last stage of Listeners, bound to the consumers of the last consumer
group; the Sequencer `Build` returns is `NewSequencer` (spin-decorated when
the spin-wait flag is set) over the producer Sequence, the CompositeBarrier
over the Sequences of the Listeners of that last stage, and the configured
capacity; no Listener of an earlier stage has one of these Sequences, and
the producer Sequence is not one of them. -/
theorem Build_producer_gating (this : Wireup) (allocated : Nat)
    (hvalid : validate this = error.nil) :
    ∃ last : List Listener,
      (this.stages (Build this allocated).2).getLast? = some last ∧
      this.consumerGroups.getLast? = some (last.map Listener.consumer) ∧
      (Build this allocated).1 =
        (if this.spinWait then
          NewSpinSequencer (NewSequencer (NewSequence allocated).1
            (NewCompositeBarrier (last.map Listener.current)) this.capacity)
        else
          NewSequencer (NewSequence allocated).1
            (NewCompositeBarrier (last.map Listener.current)) this.capacity) ∧
      (∀ (j : Nat) (earlier : List Listener),
        (this.stages (Build this allocated).2)[j]? = some earlier →
        j + 1 < (this.stages (Build this allocated).2).length →
        ∀ listener ∈ earlier, listener.current ∉ last.map Listener.current) ∧
      (NewSequence allocated).1 ∉ last.map Listener.current := by
  have hv := (validate_eq_nil_iff this).mp hvalid
  have hne : stagesFrom this ⟨allocated⟩ (Barrier.sequence ⟨allocated⟩) (allocated + 1)
      this.consumerGroups ≠ [] := by
    intro h
    have hlen := stagesFrom_length this ⟨allocated⟩ (Barrier.sequence ⟨allocated⟩)
      (allocated + 1) this.consumerGroups
    rw [h] at hlen
    exact hv.2.2.2.1 (List.length_eq_zero.mp hlen.symm)
  obtain ⟨last, hlast⟩ := Option.isSome_iff_exists.mp (List.getLast?_isSome.mpr hne)
  refine ⟨last, ?_, ?_, ?_, ?_, ?_⟩
  · rw [Build_stages]; exact hlast
  · have hmap := stagesFrom_consumer this ⟨allocated⟩ (Barrier.sequence ⟨allocated⟩)
      (allocated + 1) this.consumerGroups
    have h2 := List.getLast?_map (List.map Listener.consumer)
      (stagesFrom this ⟨allocated⟩ (Barrier.sequence ⟨allocated⟩) (allocated + 1)
        this.consumerGroups)
    rw [hmap, hlast] at h2
    exact h2
  · have hup : (buildListeners this (NewSequence allocated).1 (NewSequence allocated).2).2.1 =
        NewCompositeBarrier (last.map Listener.current) :=
      groupStep_foldl_upstream this ⟨allocated⟩ this.consumerGroups [] _ _ last hlast
    rw [Build_sequencer, hup]
    rfl
  · rw [Build_stages]
    intro j earlier hj hlt l hl hmem
    obtain ⟨l', hl', heq⟩ := List.mem_map.mp hmem
    rw [List.getLast?_eq_getElem?] at hlast
    have hlt' := stagesFrom_addr_lt _ _ _ _ _ j _ (by omega) earlier last hj hlast l hl l' hl'
    rw [heq] at hlt'
    exact Nat.lt_irrefl _ hlt'
  · intro hmem
    obtain ⟨l', hl', heq⟩ := List.mem_map.mp hmem
    have hge := stagesFrom_addr_ge _ _ _ _ _ last (List.mem_of_mem_getLast? hlast) l' hl'
    rw [heq] at hge
    exact Nat.not_succ_le_self _ hge

/-- Producer gating for capacity 4 and the stages `[c1, c2]`, `[c3]`, without spin
decoration: the read Barrier is over the Sequences of the stage of `c3`. -/
theorem Build_producer_gating_witness :
    validate (Wireup.mk false (WaitStrategy.impl 0) 4
      [[Consumer.impl 1, Consumer.impl 2], [Consumer.impl 3]]) = error.nil ∧
    ∃ last : List Listener,
      last.map Listener.consumer = [Consumer.impl 3] ∧
      (Build (Wireup.mk false (WaitStrategy.impl 0) 4
        [[Consumer.impl 1, Consumer.impl 2], [Consumer.impl 3]]) 0).1 =
        NewSequencer (NewSequence 0).1 (NewCompositeBarrier (last.map Listener.current)) 4 :=
  ⟨by decide,
    (Build_producer_gating (Wireup.mk false (WaitStrategy.impl 0) 4
      [[Consumer.impl 1, Consumer.impl 2], [Consumer.impl 3]]) 0 (by decide)).elim
      fun last h => ⟨last, (Option.some.inj h.2.1).symm, h.2.2.1⟩⟩


theorem foldl_options_spinWait (calls : List OptionCall)
    (hno : ∀ value, OptionCall.withSpinWait value ∉ calls) (init : Wireup) :
    ((calls.map OptionCall.option).foldl (fun this option => option this) init).spinWait =
      init.spinWait := by
  induction calls generalizing init with
  | nil => rfl
  | cons c cs ih =>
    have hcs : ∀ value, OptionCall.withSpinWait value ∉ cs :=
      fun value h => hno value (List.mem_cons_of_mem _ h)
    rw [List.map_cons, List.foldl_cons, ih hcs]
    cases c with
    | withSpinWait value => exact absurd (List.mem_cons_self _ _) (hno value)
    | withWaitStrategy value => rfl
    | withCapacity value => rfl
    | withConsumerGroup value => rfl

theorem configure_spinWait_of_last (NewWaitStrategy : WaitStrategy)
    (before after : List OptionCall) (value : Bool)
    (hno : ∀ later, OptionCall.withSpinWait later ∉ after) :
    (TryNew.configure NewWaitStrategy
      ((before ++ OptionCall.withSpinWait value :: after).map OptionCall.option)).spinWait
      = value := by
  unfold TryNew.configure
  rw [List.map_append, List.foldl_append, List.map_cons, List.foldl_cons,
    foldl_options_spinWait after hno]
  rfl

theorem buildListeners_spinWait (this : Wireup) (value : Bool) (w : Sequence) (a : Nat) :
    buildListeners { this with spinWait := value } w a = buildListeners this w a := rfl

/-- C10: spin decoration is selectable and on by default.  The Sequencer that
`Build` returns is `NewSpinSequencer` of the plain Sequencer when the
spin-wait flag is true and the plain Sequencer itself when it is false, the
plain Sequencer being `NewSequencer` over the producer Sequence, the read
Barrier that `buildListeners` returns, and the configured capacity; it is
spin-decorated if and only if the flag is true; the two settings of the flag
give the same plain Sequencer.  The flag is true after a list of option calls
with no `WithSpinWait` call, and when the last `WithSpinWait` call of the
list passes `false`, `Build` returns the plain Sequencer. -/
theorem Build_spin_decoration (this : Wireup) (allocated : Nat)
    (NewWaitStrategy : WaitStrategy) :
    (Build this allocated).1 =
      (if this.spinWait then
        NewSpinSequencer (NewSequencer (NewSequence allocated).1
          (buildListeners this (NewSequence allocated).1 (NewSequence allocated).2).2.1
          this.capacity)
      else
        NewSequencer (NewSequence allocated).1
          (buildListeners this (NewSequence allocated).1 (NewSequence allocated).2).2.1
          this.capacity) ∧
    ((∃ inner, (Build this allocated).1 = NewSpinSequencer inner) ↔ this.spinWait = true) ∧
    (Build { this with spinWait := true } allocated).1 =
      NewSpinSequencer (Build { this with spinWait := false } allocated).1 ∧
    (∀ calls : List OptionCall, (∀ value, OptionCall.withSpinWait value ∉ calls) →
      (TryNew.configure NewWaitStrategy (calls.map OptionCall.option)).spinWait = true) ∧
    (∀ before after : List OptionCall, (∀ value, OptionCall.withSpinWait value ∉ after) →
      (Build (TryNew.configure NewWaitStrategy
        ((before ++ OptionCall.withSpinWait false :: after).map OptionCall.option))
        allocated).1 =
      NewSequencer (NewSequence allocated).1
        (buildListeners (TryNew.configure NewWaitStrategy
          ((before ++ OptionCall.withSpinWait false :: after).map OptionCall.option))
          (NewSequence allocated).1 (NewSequence allocated).2).2.1
        (TryNew.configure NewWaitStrategy
          ((before ++ OptionCall.withSpinWait false :: after).map OptionCall.option)).capacity)
    := by
  have hbuild : ∀ w : Wireup, (Build w allocated).1 =
      (if w.spinWait then
        NewSpinSequencer (NewSequencer (NewSequence allocated).1
          (buildListeners w (NewSequence allocated).1 (NewSequence allocated).2).2.1
          w.capacity)
      else
        NewSequencer (NewSequence allocated).1
          (buildListeners w (NewSequence allocated).1 (NewSequence allocated).2).2.1
          w.capacity) := by
    intro w
    rw [Build_sequencer]
    unfold buildSequencer
    rfl
  refine ⟨hbuild this, ?_, ?_, ?_, ?_⟩
  · rw [hbuild this]
    cases hs : this.spinWait
    · simp [NewSpinSequencer, NewSequencer]
    · simp
  · rw [hbuild, hbuild]
    simp [buildListeners_spinWait]
  · intro calls hno
    unfold TryNew.configure
    rw [foldl_options_spinWait calls hno]
    rfl
  · intro before after hno
    rw [hbuild, configure_spinWait_of_last NewWaitStrategy before after false hno]
    simp

/-- Without a `WithSpinWait` option the flag is true; with `WithSpinWait(true)`
followed later by `WithSpinWait(false)`, `Build` returns the plain Sequencer. -/
theorem Build_spin_decoration_witness :
    (TryNew.configure (WaitStrategy.impl 0)
      ([OptionCall.withCapacity 2, OptionCall.withConsumerGroup [Consumer.impl 1]].map
        OptionCall.option)).spinWait = true ∧
    (Build (TryNew.configure (WaitStrategy.impl 0)
      (([OptionCall.withSpinWait true, OptionCall.withCapacity 2] ++
        OptionCall.withSpinWait false ::
          [OptionCall.withConsumerGroup [Consumer.impl 1]]).map OptionCall.option)) 0).1 =
      NewSequencer (NewSequence 0).1 (NewCompositeBarrier [(NewSequence 1).1]) 2 :=
  ⟨(Build_spin_decoration Wireup.zero 0 (WaitStrategy.impl 0)).2.2.2.1
      [OptionCall.withCapacity 2, OptionCall.withConsumerGroup [Consumer.impl 1]] (by simp),
    ((Build_spin_decoration Wireup.zero 0 (WaitStrategy.impl 0)).2.2.2.2
      [OptionCall.withSpinWait true, OptionCall.withCapacity 2]
      [OptionCall.withConsumerGroup [Consumer.impl 1]] (by simp)).trans (by decide)⟩



/-! ### Listeners -/

theorem stageListeners_current (this : Wireup) (w : Sequence) (up : Barrier) (a : Nat)
    (g : List Consumer) :
    (stageListeners this w up a g).map Listener.current
      = (List.range' a g.length).map Sequence.mk := by
  induction g generalizing a with
  | nil => rfl
  | cons c cs ih => simp [stageListeners, ih, NewListener, List.range'_succ]

theorem stagesFrom_current (this : Wireup) (w : Sequence) (up : Barrier) (a : Nat)
    (gs : List (List Consumer)) :
    (stagesFrom this w up a gs).flatten.map Listener.current
      = (List.range' a (gs.map List.length).sum).map Sequence.mk := by
  induction gs generalizing up a with
  | nil => rfl
  | cons g rest ih =>
    rw [stagesFrom, List.flatten_cons, List.map_append, stageListeners_current, ih,
      ← List.map_append, List.range'_append_1, List.map_cons, List.sum_cons,
      Nat.add_comm (List.map List.length rest).sum]

theorem stagesFrom_mem (this : Wireup) (w : Sequence) (up : Barrier) (a : Nat)
    (gs : List (List Consumer)) (stage : List Listener)
    (hstage : stage ∈ stagesFrom this w up a gs) (l : Listener) (hl : l ∈ stage) :
    l.written = w ∧ l.waiter = this.waiter := by
  induction gs generalizing up a with
  | nil => simp [stagesFrom] at hstage
  | cons g rest ih =>
    simp only [stagesFrom, List.mem_cons] at hstage
    rcases hstage with h | h
    · subst h
      have hmem := stageListeners_mem this w up a g l hl
      exact ⟨hmem.2.1, hmem.2.2.1⟩
    · exact ih _ _ h

/-- C11: one Listener per consumer, for every validated configuration.  The
Listeners `Build` returns are as many as the consumer entries of all groups;
their consumers, in order, are the consumers of the groups in stage order and,
within a stage, in the order of the group; no Listener is bound to a nil
consumer; every Listener has the configured (non-nil) wait strategy and the
producer Sequence as the written Sequence; and the Listeners have pairwise
different Sequences of their own. -/
theorem Build_one_listener_per_consumer (this : Wireup) (allocated : Nat)
    (hvalid : validate this = error.nil) :
    (Build this allocated).2.length = (this.consumerGroups.map List.length).sum ∧
    (Build this allocated).2.map Listener.consumer = this.consumerGroups.flatten ∧
    (∀ listener ∈ (Build this allocated).2,
      listener.consumer ≠ Consumer.nil ∧
      listener.waiter = this.waiter ∧
      listener.waiter ≠ WaitStrategy.nil ∧
      listener.written = (NewSequence allocated).1) ∧
    ((Build this allocated).2.map Listener.current).Nodup := by
  have hv := (validate_eq_nil_iff this).mp hvalid
  have hcons : (Build this allocated).2.map Listener.consumer
      = this.consumerGroups.flatten := by
    rw [Build_listeners, List.map_flatten, stagesFrom_consumer]
  refine ⟨?_, hcons, ?_, ?_⟩
  · have hlen := congrArg List.length hcons
    rw [List.length_map, List.length_flatten] at hlen
    exact hlen
  · intro l hl
    have hc : l.consumer ∈ this.consumerGroups.flatten := by
      rw [← hcons]
      exact List.mem_map_of_mem _ hl
    obtain ⟨g, hg, hcg⟩ := List.mem_flatten.mp hc
    rw [Build_listeners] at hl
    obtain ⟨stage, hstage, hmem⟩ := List.mem_flatten.mp hl
    have hw := stagesFrom_mem _ _ _ _ _ stage hstage l hmem
    refine ⟨hv.2.2.2.2.2 g hg _ hcg, hw.2, ?_, hw.1⟩
    rw [hw.2]
    exact hv.1
  · rw [Build_listeners, stagesFrom_current]
    refine List.Nodup.map ?_ (List.nodup_range' _ _)
    intro x y hxy
    exact Sequence.mk.inj hxy

/-- Three Listeners for the stages `[c1, c2]`, `[c3]`, bound to `c1`, `c2`,
`c3` in this order. -/
theorem Build_one_listener_per_consumer_witness :
    validate (Wireup.mk true (WaitStrategy.impl 0) 4
      [[Consumer.impl 1, Consumer.impl 2], [Consumer.impl 3]]) = error.nil ∧
    (Build (Wireup.mk true (WaitStrategy.impl 0) 4
      [[Consumer.impl 1, Consumer.impl 2], [Consumer.impl 3]]) 0).2.length = 3 ∧
    (Build (Wireup.mk true (WaitStrategy.impl 0) 4
      [[Consumer.impl 1, Consumer.impl 2], [Consumer.impl 3]]) 0).2.map Listener.consumer
      = [Consumer.impl 1, Consumer.impl 2, Consumer.impl 3] :=
  ⟨by decide,
    (Build_one_listener_per_consumer (Wireup.mk true (WaitStrategy.impl 0) 4
      [[Consumer.impl 1, Consumer.impl 2], [Consumer.impl 3]]) 0 (by decide)).1,
    (Build_one_listener_per_consumer (Wireup.mk true (WaitStrategy.impl 0) 4
      [[Consumer.impl 1, Consumer.impl 2], [Consumer.impl 3]]) 0 (by decide)).2.1⟩



/-! ### The aborting constructor -/

theorem New_eq (NewWaitStrategy : WaitStrategy) (options : List WireupOption) :
    New NewWaitStrategy options =
      if validate (TryNew.configure NewWaitStrategy options) = error.nil
      then Except.ok (some (TryNew.configure NewWaitStrategy options))
      else Except.error (validate (TryNew.configure NewWaitStrategy options)) := by
  cases h : validate (TryNew.configure NewWaitStrategy options) <;> simp [New, TryNew, h]

/-- C12: `New` is the aborting form of `TryNew`.  For every list of options,
when `TryNew` returns a `Wireup` with a nil error, `New` returns that same
`Wireup`; when `TryNew` returns a non-nil error, `New` panics with that error
and returns nothing; and one of the two happens. -/
theorem New_aborting_form_of_TryNew (NewWaitStrategy : WaitStrategy)
    (options : List WireupOption) :
    ((TryNew NewWaitStrategy options).2 = error.nil →
      New NewWaitStrategy options = Except.ok (TryNew NewWaitStrategy options).1 ∧
      (TryNew NewWaitStrategy options).1 = some (TryNew.configure NewWaitStrategy options)) ∧
    ((TryNew NewWaitStrategy options).2 ≠ error.nil →
      New NewWaitStrategy options = Except.error (TryNew NewWaitStrategy options).2 ∧
      ∀ returned : Option Wireup, New NewWaitStrategy options ≠ Except.ok returned) ∧
    ((TryNew NewWaitStrategy options).2 = error.nil ∨
      (TryNew NewWaitStrategy options).2 ≠ error.nil) := by
  rw [New_eq, TryNew_snd, TryNew_fst]
  by_cases h : validate (TryNew.configure NewWaitStrategy options) = error.nil
  · simp [h]
  · simp [h]

/-- With capacity 4 and one consumer `New` returns the `Wireup` of `TryNew`;
with capacity 3 it panics with the error of `TryNew`, `errCapacityPowerOfTwo`. -/
theorem New_aborting_form_of_TryNew_witness :
    (TryNew (WaitStrategy.impl 0)
      [WithCapacity 4, WithConsumerGroup [Consumer.impl 1]]).2 = error.nil ∧
    New (WaitStrategy.impl 0) [WithCapacity 4, WithConsumerGroup [Consumer.impl 1]] =
      Except.ok (TryNew (WaitStrategy.impl 0)
        [WithCapacity 4, WithConsumerGroup [Consumer.impl 1]]).1 ∧
    (TryNew (WaitStrategy.impl 0)
      [WithCapacity 3, WithConsumerGroup [Consumer.impl 1]]).2 = errCapacityPowerOfTwo ∧
    New (WaitStrategy.impl 0) [WithCapacity 3, WithConsumerGroup [Consumer.impl 1]] =
      Except.error (TryNew (WaitStrategy.impl 0)
        [WithCapacity 3, WithConsumerGroup [Consumer.impl 1]]).2 :=
  ⟨by decide,
    ((New_aborting_form_of_TryNew (WaitStrategy.impl 0)
      [WithCapacity 4, WithConsumerGroup [Consumer.impl 1]]).1 (by decide)).1,
    by decide,
    ((New_aborting_form_of_TryNew (WaitStrategy.impl 0)
      [WithCapacity 3, WithConsumerGroup [Consumer.impl 1]]).2.1 (by decide)).1⟩



/-! ### Order of the checks -/

theorem validateGroups_eq_firstGroupDefect (consumerGroups : List (List Consumer)) :
    validateGroups consumerGroups = firstGroupDefect consumerGroups := by
  induction consumerGroups with
  | nil => rfl
  | cons g rest ih =>
    by_cases hg : g = []
    · subst hg
      simp [validateGroups, firstGroupDefect, firstDefectiveGroup]
    · rw [validateGroups_cons_of_ne_nil g rest hg]
      by_cases hnil : Consumer.nil ∈ g
      · rw [validateConsumers_of_mem_nil g hnil]
        simp [firstGroupDefect, firstDefectiveGroup, hg, hnil]
      · have hv : validateConsumers g = error.nil :=
          (validateConsumers_eq_nil_iff g).mpr (fun c hc h => hnil (h ▸ hc))
        rw [hv, if_pos rfl, ih]
        simp [firstGroupDefect, firstDefectiveGroup, hg, hnil]

theorem firstGroupDefect_of_empty_group (consumerGroups : List (List Consumer))
    (hempty : [] ∈ consumerGroups)
    (hnil : ∀ consumerGroup ∈ consumerGroups, Consumer.nil ∉ consumerGroup) :
    firstGroupDefect consumerGroups = errMissingConsumersInGroup := by
  unfold firstGroupDefect
  cases hfind : firstDefectiveGroup consumerGroups with
  | none =>
    unfold firstDefectiveGroup at hfind
    have hall := List.find?_eq_none.mp hfind [] hempty
    simp at hall
  | some g =>
    unfold firstDefectiveGroup at hfind
    have hmem := List.mem_of_find?_eq_some hfind
    have hp := List.find?_some hfind
    have hg : g = [] := by
      simp only [Bool.or_eq_true, decide_eq_true_eq] at hp
      rcases hp with h | h
      · exact h
      · exact absurd h (hnil g hmem)
    simp [hg]

/-- C13: `validate` reports the error of the first failing check, in a fixed
order: a nil wait strategy gives `errMissingWaitStrategy`; otherwise a
capacity that is zero or negative gives `errCapacityTooSmall`; otherwise a
capacity that is not a power of two gives `errCapacityPowerOfTwo`; otherwise
an empty list of consumer groups gives `errMissingConsumers`; otherwise the
first group that is empty or contains a nil consumer decides the result,
`errMissingConsumersInGroup` if it is empty and `errEmptyConsumer` if it
contains a nil consumer.  In particular, with a valid wait strategy and
capacity, an empty group and no nil consumer, the result is
`errMissingConsumersInGroup`. -/
theorem validate_first_failing_check (this : Wireup) :
    (this.waiter = WaitStrategy.nil → validate this = errMissingWaitStrategy) ∧
    (this.waiter ≠ WaitStrategy.nil → this.capacity.val ≤ 0 →
      validate this = errCapacityTooSmall) ∧
    (this.waiter ≠ WaitStrategy.nil → 0 < this.capacity.val →
      (¬ ∃ k : Nat, this.capacity.val = 2 ^ k) →
      validate this = errCapacityPowerOfTwo) ∧
    (this.waiter ≠ WaitStrategy.nil → 0 < this.capacity.val →
      (∃ k : Nat, this.capacity.val = 2 ^ k) → this.consumerGroups = [] →
      validate this = errMissingConsumers) ∧
    (this.waiter ≠ WaitStrategy.nil → 0 < this.capacity.val →
      (∃ k : Nat, this.capacity.val = 2 ^ k) → this.consumerGroups ≠ [] →
      validate this = firstGroupDefect this.consumerGroups) ∧
    (this.waiter ≠ WaitStrategy.nil → 0 < this.capacity.val →
      (∃ k : Nat, this.capacity.val = 2 ^ k) → [] ∈ this.consumerGroups →
      (∀ consumerGroup ∈ this.consumerGroups, Consumer.nil ∉ consumerGroup) →
      validate this = errMissingConsumersInGroup) := by
  have hgroups : this.waiter ≠ WaitStrategy.nil → 0 < this.capacity.val →
      (∃ k : Nat, this.capacity.val = 2 ^ k) → this.consumerGroups ≠ [] →
      validate this = firstGroupDefect this.consumerGroups := by
    intro hw hpos hpow hne
    have hp : (this.capacity.and (this.capacity.sub 1)).val = 0 :=
      (int64.and_sub_one_eq_zero_iff this.capacity hpos).mpr hpow
    have hc : ¬ this.capacity.val ≤ 0 := by omega
    have hlen : this.consumerGroups.length ≠ 0 := by simpa using hne
    simp only [validate, hw, hc, hp, hlen, if_false, ne_eq, not_true_eq_false]
    exact validateGroups_eq_firstGroupDefect _
  refine ⟨?_, ?_, ?_, ?_, hgroups, ?_⟩
  · intro hw
    simp [validate, hw]
  · intro hw hcap
    simp only [validate, hw, hcap, if_false, if_true]
  · intro hw hpos hpow
    have hp : (this.capacity.and (this.capacity.sub 1)).val ≠ 0 :=
      fun h => hpow ((int64.and_sub_one_eq_zero_iff this.capacity hpos).mp h)
    have hc : ¬ this.capacity.val ≤ 0 := by omega
    simp only [validate, hw, hc, if_false, hp, ne_eq, not_false_eq_true, if_true]
  · intro hw hpos hpow hnil
    have hp : (this.capacity.and (this.capacity.sub 1)).val = 0 :=
      (int64.and_sub_one_eq_zero_iff this.capacity hpos).mpr hpow
    have hc : ¬ this.capacity.val ≤ 0 := by omega
    simp [validate, hw, hc, hp, hnil]
  · intro hw hpos hpow hempty hnil
    rw [hgroups hw hpos hpow (List.ne_nil_of_mem hempty)]
    exact firstGroupDefect_of_empty_group _ hempty hnil

/-- A nil wait strategy is reported ahead of a bad capacity and missing
consumers; an empty group placed after a group with a nil consumer leaves
`errEmptyConsumer`; and an empty group as the only defect gives
`errMissingConsumersInGroup`. -/
theorem validate_first_failing_check_witness :
    validate (Wireup.mk true WaitStrategy.nil 3 []) = errMissingWaitStrategy ∧
    validate (Wireup.mk true (WaitStrategy.impl 0) 4
      [[Consumer.impl 1], [Consumer.nil], []]) =
      firstGroupDefect [[Consumer.impl 1], [Consumer.nil], []] ∧
    firstGroupDefect [[Consumer.impl 1], [Consumer.nil], []] = errEmptyConsumer ∧
    validate (Wireup.mk true (WaitStrategy.impl 0) 4 [[Consumer.impl 1], []]) =
      errMissingConsumersInGroup :=
  ⟨(validate_first_failing_check (Wireup.mk true WaitStrategy.nil 3 [])).1 rfl,
    (validate_first_failing_check (Wireup.mk true (WaitStrategy.impl 0) 4
      [[Consumer.impl 1], [Consumer.nil], []])).2.2.2.2.1
      (by decide) (by decide) ⟨2, by decide⟩ (by decide),
    by decide,
    (validate_first_failing_check (Wireup.mk true (WaitStrategy.impl 0) 4
      [[Consumer.impl 1], []])).2.2.2.2.2
      (by decide) (by decide) ⟨2, by decide⟩ (by decide) (by decide)⟩



/-! ### The capacity check over `int64` -/

theorem int64.sub_one_val (c : int64) (hc : 0 < c.val) : (c.sub 1).val = c.val - 1 := by
  have hhi := c.hi
  show (c.val - (1 : int64).val + 9223372036854775808) % 18446744073709551616
    - 9223372036854775808 = c.val - 1
  rw [int64.one_val]
  omega

theorem int64.exponent_le (c : int64) (k : Nat) (hk : c.val = 2 ^ k) : k ≤ 62 := by
  by_contra hlt
  have h63 : 63 ≤ k := by omega
  have hpow : (2 : Nat) ^ 63 ≤ 2 ^ k := Nat.pow_le_pow_right (by norm_num) h63
  have hcast : ((2 : Nat) ^ 63 : Int) ≤ ((2 : Nat) ^ k : Int) := by exact_mod_cast hpow
  have hhi := c.hi
  rw [hk] at hhi
  norm_num at hcast
  omega

theorem int64.capacity_checks_iff (c : int64) :
    (0 < c.val ∧ (c.and (c.sub 1)).val = 0) ↔ ∃ k : Nat, k ≤ 62 ∧ c.val = 2 ^ k := by
  constructor
  · rintro ⟨hpos, hand⟩
    obtain ⟨k, hk⟩ := (int64.and_sub_one_eq_zero_iff c hpos).mp hand
    exact ⟨k, int64.exponent_le c k hk, hk⟩
  · rintro ⟨k, _, hk⟩
    have hpos : 0 < c.val := by rw [hk]; positivity
    exact ⟨hpos, (int64.and_sub_one_eq_zero_iff c hpos).mpr ⟨k, hk⟩⟩

theorem validateGroups_cases (consumerGroups : List (List Consumer)) :
    validateGroups consumerGroups = error.nil ∨
      validateGroups consumerGroups = errMissingConsumersInGroup ∨
      validateGroups consumerGroups = errEmptyConsumer := by
  induction consumerGroups with
  | nil => exact Or.inl rfl
  | cons g gs ih =>
    by_cases hg : g = []
    · simp [validateGroups, hg]
    · rw [validateGroups_cons_of_ne_nil g gs hg]
      rcases validateConsumers_cases g with h | h
      · simpa [h] using ih
      · simp [h]

theorem validate_capacity_error_iff (this : Wireup) :
    (validate this = errCapacityTooSmall ∨ validate this = errCapacityPowerOfTwo) ↔
      this.waiter ≠ WaitStrategy.nil ∧
      ¬ ∃ k : Nat, k ≤ 62 ∧ this.capacity.val = 2 ^ k := by
  have hiff := int64.capacity_checks_iff this.capacity
  by_cases hw : this.waiter = WaitStrategy.nil
  · simp [validate, hw]
  by_cases hc : this.capacity.val ≤ 0
  · have hno : ¬ ∃ k : Nat, k ≤ 62 ∧ this.capacity.val = 2 ^ k :=
      fun h => absurd (hiff.mpr h).1 (by omega)
    simp only [validate, hw, hc, if_false, if_true, true_or, ne_eq, not_false_eq_true, hno,
      and_self]
  by_cases hp : (this.capacity.and (this.capacity.sub 1)).val = 0
  · have hyes : ∃ k : Nat, k ≤ 62 ∧ this.capacity.val = 2 ^ k := hiff.mp ⟨by omega, hp⟩
    have hres : validate this ≠ errCapacityTooSmall ∧ validate this ≠ errCapacityPowerOfTwo := by
      by_cases hl : this.consumerGroups.length = 0
      · simp [validate, hw, hc, hp, hl]
      · have hv : validate this = validateGroups this.consumerGroups := by
          simp only [validate, hw, hc, hp, hl, if_false, ne_eq, not_true_eq_false]
        rw [hv]
        rcases validateGroups_cases this.consumerGroups with h | h | h <;> simp [h]
    constructor
    · rintro (h | h)
      · exact absurd h hres.1
      · exact absurd h hres.2
    · rintro ⟨_, hno⟩
      exact absurd hyes hno
  · have hno : ¬ ∃ k : Nat, k ≤ 62 ∧ this.capacity.val = 2 ^ k :=
      fun h => hp (hiff.mpr h).2
    simp only [validate, hw, hc, hp, if_false, ne_eq, not_false_eq_true, if_true, or_true, hno,
      and_self]

/-- C14: the capacity check is exact over `int64`.  For every `int64` capacity,
the two capacity checks of `validate` pass (capacity > 0 and
capacity & (capacity-1) == 0) if and only if the capacity is `2^k` for some
`k` with `0 ≤ k ≤ 62`; accordingly `validate` returns one of the two capacity
errors exactly when the wait strategy is not nil and the capacity is not such
a power.  Capacity 1 passes.  For a capacity of at least 1 the `int64`
subtraction `capacity-1` is the exact difference (no overflow), and for a
capacity below 1 `validate` has returned before the subtraction. -/
theorem capacity_check_exact (this : Wireup) :
    ((0 < this.capacity.val ∧ (this.capacity.and (this.capacity.sub 1)).val = 0) ↔
      ∃ k : Nat, k ≤ 62 ∧ this.capacity.val = 2 ^ k) ∧
    ((validate this = errCapacityTooSmall ∨ validate this = errCapacityPowerOfTwo) ↔
      this.waiter ≠ WaitStrategy.nil ∧
      ¬ ∃ k : Nat, k ≤ 62 ∧ this.capacity.val = 2 ^ k) ∧
    (0 < (1 : int64).val ∧ ((1 : int64).and ((1 : int64).sub 1)).val = 0) ∧
    (1 ≤ this.capacity.val →
      (this.capacity.sub 1).val = this.capacity.val - 1 ∧
      -9223372036854775808 ≤ this.capacity.val - 1 ∧
      this.capacity.val - 1 < 9223372036854775808) ∧
    (this.capacity.val ≤ 0 →
      validate this = errMissingWaitStrategy ∨ validate this = errCapacityTooSmall) := by
  refine ⟨int64.capacity_checks_iff this.capacity, validate_capacity_error_iff this, ?_, ?_, ?_⟩
  · exact (int64.capacity_checks_iff 1).mpr ⟨0, by omega, by rw [int64.one_val]; rfl⟩
  · intro h1
    have hhi := this.capacity.hi
    exact ⟨int64.sub_one_val this.capacity (by omega), by omega, by omega⟩
  · intro hc
    by_cases hw : this.waiter = WaitStrategy.nil
    · simp [validate, hw]
    · simp [validate, hw, hc]

/-- Capacity `2^62` passes the two checks; capacity `-2^63`, where the
subtraction would overflow, is rejected by the first of them. -/
theorem capacity_check_exact_witness :
    (0 < (Wireup.mk true (WaitStrategy.impl 0) (int64.wrap 4611686018427387904)
        [[Consumer.impl 1]]).capacity.val ∧
      ((Wireup.mk true (WaitStrategy.impl 0) (int64.wrap 4611686018427387904)
        [[Consumer.impl 1]]).capacity.and
        ((Wireup.mk true (WaitStrategy.impl 0) (int64.wrap 4611686018427387904)
          [[Consumer.impl 1]]).capacity.sub 1)).val = 0) ∧
    (validate (Wireup.mk true (WaitStrategy.impl 0) (int64.wrap (-9223372036854775808))
        [[Consumer.impl 1]]) = errMissingWaitStrategy ∨
      validate (Wireup.mk true (WaitStrategy.impl 0) (int64.wrap (-9223372036854775808))
        [[Consumer.impl 1]]) = errCapacityTooSmall) :=
  ⟨(capacity_check_exact (Wireup.mk true (WaitStrategy.impl 0)
      (int64.wrap 4611686018427387904) [[Consumer.impl 1]])).1.mpr ⟨62, by decide, by decide⟩,
    (capacity_check_exact (Wireup.mk true (WaitStrategy.impl 0)
      (int64.wrap (-9223372036854775808)) [[Consumer.impl 1]])).2.2.2.2 (by decide)⟩



/-! ### Effect of the options -/

theorem configure_waiter_of_last (NewWaitStrategy : WaitStrategy)
    (before after : List OptionCall) (value : WaitStrategy)
    (hno : ∀ later, OptionCall.withWaitStrategy later ∉ after) :
    (TryNew.configure NewWaitStrategy
      ((before ++ OptionCall.withWaitStrategy value :: after).map OptionCall.option)).waiter
      = value := by
  unfold TryNew.configure
  rw [List.map_append, List.foldl_append, List.map_cons, List.foldl_cons,
    foldl_options_waiter after hno]
  rfl

/-- C15: a missing wait strategy is reported, not defaulted.  For every list
of option calls whose last `WithWaitStrategy` call passes a nil wait strategy,
`TryNew` returns a nil `Wireup` and `errMissingWaitStrategy`, whatever the
default strategy, the capacity and the consumer groups are. -/
theorem TryNew_nil_wait_strategy (NewWaitStrategy : WaitStrategy)
    (before after : List OptionCall)
    (hlast : ∀ later, OptionCall.withWaitStrategy later ∉ after) :
    TryNew NewWaitStrategy
      ((before ++ OptionCall.withWaitStrategy WaitStrategy.nil :: after).map OptionCall.option)
      = (none, errMissingWaitStrategy) := by
  have hw := configure_waiter_of_last NewWaitStrategy before after WaitStrategy.nil hlast
  have hv := (validate_eq_errMissingWaitStrategy_iff _).mpr hw
  unfold TryNew
  simp only [hv]

/-- A valid capacity and consumer group, an earlier non-nil `WithWaitStrategy`
and a non-nil default do not help: the last `WithWaitStrategy(nil)` decides. -/
theorem TryNew_nil_wait_strategy_witness :
    (∀ later, OptionCall.withWaitStrategy later ∉
      [OptionCall.withConsumerGroup [Consumer.impl 1]]) ∧
    TryNew (WaitStrategy.impl 0)
      (([OptionCall.withCapacity 4, OptionCall.withWaitStrategy (WaitStrategy.impl 5)] ++
        OptionCall.withWaitStrategy WaitStrategy.nil ::
          [OptionCall.withConsumerGroup [Consumer.impl 1]]).map OptionCall.option)
      = (none, errMissingWaitStrategy) :=
  ⟨by simp,
    TryNew_nil_wait_strategy (WaitStrategy.impl 0)
      [OptionCall.withCapacity 4, OptionCall.withWaitStrategy (WaitStrategy.impl 5)]
      [OptionCall.withConsumerGroup [Consumer.impl 1]] (by simp)⟩



theorem foldl_options_fields (calls : List OptionCall) (init : Wireup) :
    ((calls.map OptionCall.option).foldl (fun this option => option this) init).spinWait
      = (OptionCall.lastSpinWait calls).getD init.spinWait ∧
    ((calls.map OptionCall.option).foldl (fun this option => option this) init).waiter
      = (OptionCall.lastWaitStrategy calls).getD init.waiter ∧
    ((calls.map OptionCall.option).foldl (fun this option => option this) init).capacity
      = (OptionCall.lastCapacity calls).getD init.capacity ∧
    ((calls.map OptionCall.option).foldl (fun this option => option this) init).consumerGroups
      = init.consumerGroups ++ OptionCall.consumerGroups calls := by
  induction calls using List.reverseRecOn with
  | nil =>
    simp [OptionCall.lastSpinWait, OptionCall.lastWaitStrategy, OptionCall.lastCapacity,
      OptionCall.consumerGroups]
  | append_singleton xs c ih =>
    obtain ⟨h1, h2, h3, h4⟩ := ih
    simp only [List.map_append, List.map_cons, List.map_nil, List.foldl_append, List.foldl_cons,
      List.foldl_nil, OptionCall.lastSpinWait, OptionCall.lastWaitStrategy,
      OptionCall.lastCapacity, OptionCall.consumerGroups, List.reverse_append,
      List.reverse_cons, List.reverse_nil, List.nil_append, List.singleton_append,
      List.findSome?_cons, List.filterMap_append, List.filterMap_cons, List.filterMap_nil]
      at h1 h2 h3 h4 ⊢
    cases c with
    | withSpinWait value =>
      exact ⟨rfl, h2, h3, by simpa using h4⟩
    | withWaitStrategy value =>
      exact ⟨h1, rfl, h3, by simpa using h4⟩
    | withCapacity value =>
      exact ⟨h1, h2, rfl, by simpa using h4⟩
    | withConsumerGroup value =>
      refine ⟨h1, h2, h3, ?_⟩
      show _ ++ [value] = _
      rw [h4, List.append_assoc]

/-- C16: options are applied left to right on top of the defaults.  For every
list of option calls, the configuration `TryNew` validates has as capacity,
spin-wait flag and wait strategy the argument of the last `WithCapacity`,
`WithSpinWait` and `WithWaitStrategy` call (0, true and the value of
`NewWaitStrategy()` when there is no such call), and as consumer groups the
argument lists of the `WithConsumerGroup` calls, one group per call, in the
order of the calls.  Each option changes its own field and no other. -/
theorem TryNew_options_left_to_right (NewWaitStrategy : WaitStrategy)
    (calls : List OptionCall) (this : Wireup) (spinWait : Bool) (waiter : WaitStrategy)
    (capacity : int64) (consumerGroup : List Consumer) :
    (TryNew.configure NewWaitStrategy (calls.map OptionCall.option)).capacity
      = (OptionCall.lastCapacity calls).getD 0 ∧
    (0 : int64).val = 0 ∧
    (TryNew.configure NewWaitStrategy (calls.map OptionCall.option)).spinWait
      = (OptionCall.lastSpinWait calls).getD true ∧
    (TryNew.configure NewWaitStrategy (calls.map OptionCall.option)).waiter
      = (OptionCall.lastWaitStrategy calls).getD NewWaitStrategy ∧
    (TryNew.configure NewWaitStrategy (calls.map OptionCall.option)).consumerGroups
      = OptionCall.consumerGroups calls ∧
    WithSpinWait spinWait this
      = Wireup.mk spinWait this.waiter this.capacity this.consumerGroups ∧
    WithWaitStrategy waiter this
      = Wireup.mk this.spinWait waiter this.capacity this.consumerGroups ∧
    WithCapacity capacity this
      = Wireup.mk this.spinWait this.waiter capacity this.consumerGroups ∧
    WithConsumerGroup consumerGroup this
      = Wireup.mk this.spinWait this.waiter this.capacity
          (this.consumerGroups ++ [consumerGroup]) := by
  obtain ⟨h1, h2, h3, h4⟩ := foldl_options_fields calls
    (WithWaitStrategy NewWaitStrategy (WithSpinWait true Wireup.zero))
  refine ⟨h3, by decide, h1, h2, ?_, rfl, rfl, rfl, rfl⟩
  unfold TryNew.configure
  rw [h4]
  rfl

/-- Two `WithCapacity` calls and two `WithConsumerGroup` calls: the later
capacity stands, both groups are kept in order, and the spin-wait flag and the
wait strategy keep their defaults. -/
theorem TryNew_options_left_to_right_witness :
    TryNew.configure (WaitStrategy.impl 0)
      ([OptionCall.withCapacity 8, OptionCall.withConsumerGroup [Consumer.impl 1],
        OptionCall.withCapacity 4,
        OptionCall.withConsumerGroup [Consumer.impl 2, Consumer.impl 3]].map
        OptionCall.option)
      = Wireup.mk true (WaitStrategy.impl 0) 4
          [[Consumer.impl 1], [Consumer.impl 2, Consumer.impl 3]] ∧
    (TryNew.configure (WaitStrategy.impl 0)
      ([OptionCall.withCapacity 8, OptionCall.withConsumerGroup [Consumer.impl 1],
        OptionCall.withCapacity 4,
        OptionCall.withConsumerGroup [Consumer.impl 2, Consumer.impl 3]].map
        OptionCall.option)).consumerGroups
      = OptionCall.consumerGroups
        [OptionCall.withCapacity 8, OptionCall.withConsumerGroup [Consumer.impl 1],
          OptionCall.withCapacity 4,
          OptionCall.withConsumerGroup [Consumer.impl 2, Consumer.impl 3]] :=
  ⟨by decide,
    (TryNew_options_left_to_right (WaitStrategy.impl 0)
      [OptionCall.withCapacity 8, OptionCall.withConsumerGroup [Consumer.impl 1],
        OptionCall.withCapacity 4,
        OptionCall.withConsumerGroup [Consumer.impl 2, Consumer.impl 3]]
      Wireup.zero true WaitStrategy.nil 0 []).2.2.2.2.1⟩



/-! ### Pipelines of validated configurations -/

theorem TryNew_fst_eq_some (NewWaitStrategy : WaitStrategy) (options : List WireupOption)
    (returned : Wireup) (hreturned : (TryNew NewWaitStrategy options).1 = some returned) :
    returned = TryNew.configure NewWaitStrategy options ∧ validate returned = error.nil := by
  rw [TryNew_fst] at hreturned
  by_cases h : validate (TryNew.configure NewWaitStrategy options) = error.nil
  · rw [if_pos h] at hreturned
    have heq := Option.some.inj hreturned
    exact ⟨heq.symm, heq ▸ h⟩
  · rw [if_neg h] at hreturned
    cases hreturned

theorem buildListeners_upstream_of_valid (this : Wireup) (allocated : Nat)
    (hvalid : validate this = error.nil) :
    ∃ last : List Listener,
      last ∈ stagesFrom this ⟨allocated⟩ (Barrier.sequence ⟨allocated⟩) (allocated + 1)
        this.consumerGroups ∧
      last ≠ [] ∧
      (buildListeners this (NewSequence allocated).1 (NewSequence allocated).2).2.1 =
        NewCompositeBarrier (last.map Listener.current) ∧
      (NewSequence allocated).1 ∉ last.map Listener.current := by
  have hv := (validate_eq_nil_iff this).mp hvalid
  have hne : stagesFrom this ⟨allocated⟩ (Barrier.sequence ⟨allocated⟩) (allocated + 1)
      this.consumerGroups ≠ [] := by
    intro h
    have hlen := stagesFrom_length this ⟨allocated⟩ (Barrier.sequence ⟨allocated⟩)
      (allocated + 1) this.consumerGroups
    rw [h] at hlen
    exact hv.2.2.2.1 (List.length_eq_zero.mp hlen.symm)
  obtain ⟨last, hlast⟩ := Option.isSome_iff_exists.mp (List.getLast?_isSome.mpr hne)
  have hmem := List.mem_of_mem_getLast? hlast
  refine ⟨last, hmem, ?_, ?_, ?_⟩
  · exact stagesFrom_ne_nil_of_mem _ _ _ _ _ hv.2.2.2.2.1 last hmem
  · exact groupStep_foldl_upstream this ⟨allocated⟩ this.consumerGroups [] _ _ last hlast
  · intro hin
    obtain ⟨l, hl, heq⟩ := List.mem_map.mp hin
    have hge := stagesFrom_addr_ge _ _ _ _ _ last hmem l hl
    rw [heq] at hge
    exact Nat.not_succ_le_self _ hge

/-- C17: every `Wireup` that `TryNew` returns satisfies the validity
predicate; `Build` on it produces at least one Listener, and a Sequencer
(spin-decorated or not) over the producer Sequence, the capacity, and a read
Barrier that is a CompositeBarrier with at least one member Sequence.  That
read Barrier is not the producer Sequence, nor is the producer Sequence one of
its members; the producer Sequence is what `buildListeners` returns as the
Barrier for a configuration with no consumer group. -/
theorem TryNew_result_wired (NewWaitStrategy : WaitStrategy) (options : List WireupOption)
    (returned : Wireup) (allocated : Nat)
    (hreturned : (TryNew NewWaitStrategy options).1 = some returned) :
    returned.Valid ∧
    (Build returned allocated).2 ≠ [] ∧
    (∃ members : List Sequence,
      members ≠ [] ∧
      (buildListeners returned (NewSequence allocated).1 (NewSequence allocated).2).2.1 =
        NewCompositeBarrier members ∧
      (Build returned allocated).1 =
        (if returned.spinWait then
          NewSpinSequencer (NewSequencer (NewSequence allocated).1
            (NewCompositeBarrier members) returned.capacity)
        else
          NewSequencer (NewSequence allocated).1
            (NewCompositeBarrier members) returned.capacity) ∧
      NewCompositeBarrier members ≠ Barrier.sequence (NewSequence allocated).1 ∧
      (NewSequence allocated).1 ∉ members) ∧
    (∀ empty : Wireup, empty.consumerGroups = [] →
      (buildListeners empty (NewSequence allocated).1 (NewSequence allocated).2).2.1 =
        Barrier.sequence (NewSequence allocated).1) := by
  obtain ⟨_, hvalid⟩ := TryNew_fst_eq_some NewWaitStrategy options returned hreturned
  obtain ⟨last, hmem, hne, hup, hw⟩ := buildListeners_upstream_of_valid returned allocated hvalid
  refine ⟨(validate_eq_nil_iff returned).mp hvalid, ?_, ?_, ?_⟩
  · rw [Build_listeners]
    intro hnil
    obtain ⟨l, hl⟩ := List.exists_mem_of_ne_nil last hne
    have hin : l ∈ (stagesFrom returned ⟨allocated⟩ (Barrier.sequence ⟨allocated⟩)
        (allocated + 1) returned.consumerGroups).flatten :=
      List.mem_flatten.mpr ⟨last, hmem, hl⟩
    rw [hnil] at hin
    cases hin
  · refine ⟨last.map Listener.current, ?_, hup, ?_, ?_, hw⟩
    · intro h
      exact hne (List.map_eq_nil_iff.mp h)
    · rw [Build_sequencer, hup]
      rfl
    · intro h
      cases h
  · intro empty hempty
    unfold buildListeners
    rw [hempty]
    rfl

/-- The `Wireup` that `TryNew` returns for capacity 4 and one group of one
consumer is valid and `Build` wires a Listener for it. -/
theorem TryNew_result_wired_witness :
    (TryNew (WaitStrategy.impl 0) [WithCapacity 4, WithConsumerGroup [Consumer.impl 1]]).1
      = some (Wireup.mk true (WaitStrategy.impl 0) 4 [[Consumer.impl 1]]) ∧
    (Wireup.mk true (WaitStrategy.impl 0) 4 [[Consumer.impl 1]]).Valid ∧
    (Build (Wireup.mk true (WaitStrategy.impl 0) 4 [[Consumer.impl 1]]) 0).2 ≠ [] :=
  ⟨by decide,
    (TryNew_result_wired (WaitStrategy.impl 0)
      [WithCapacity 4, WithConsumerGroup [Consumer.impl 1]]
      (Wireup.mk true (WaitStrategy.impl 0) 4 [[Consumer.impl 1]]) 0 (by decide)).1,
    (TryNew_result_wired (WaitStrategy.impl 0)
      [WithCapacity 4, WithConsumerGroup [Consumer.impl 1]]
      (Wireup.mk true (WaitStrategy.impl 0) 4 [[Consumer.impl 1]]) 0 (by decide)).2.1⟩


end disruptor
